import Mathlib

/-!
Verification development for the `dependify` dependency-injection library.

The definitions below are a shallow embedding of the Python sources:
  * `src/dependify/_dependency.py`                          → `Dependency`
  * `src/dependify/_resolver.py`                            → `resolverResolve`
  * `src/dependify/_dependency_injection_container.py`      → namespace `DIC`
    (the list-valued, `ContextVar`-scoped container)
  * `src/dependify/_dependency_container.py`                → namespace `DC`
    (the single-binding container with the generic-key fallback)
  * `src/dependify/_is_class_var.py`                        → `Key.isClassVar`
  * `src/dependify/_not_resolved.py`                        → `Value.sentinel`

Modelling conventions:
  * Python runtime objects are `Value`s; object identity is an allocation id
    threaded through producer calls as a counter (`alloc`).  A producer that
    "allocates a fresh object per call" is a function returning an object
    whose id is the current counter.
  * Python truthiness is `Value.truthy` (`None` and `NOT_RESOLVED` are falsy,
    instances carry an explicit truthiness flag standing for `__bool__`).
  * Keyword-argument dictionaries are functions `Nat → Option Value`; the
    parameter names of a signature are `Nat`s.
  * Dictionaries with insertion order (the bindings tables) are association
    lists; `lookupA` / `setA` / `eraseA` give the `dict` semantics (update in
    place, insert at the end).
  * Exceptions and Python's bounded recursion are modelled by `Option`:
    `none` is a raised/propagating failure, and recursive resolution carries
    explicit fuel (Python's call stack) whose exhaustion is also `none`.
  * In-place mutation of a `Dependency` (its memoized `instance` field) is
    modelled by writing the updated record back into the table at the same
    position, which coincides with Python's aliasing as long as no operation
    changes the list structure during a resolution (none does).
-/

/-- Class descriptors: `orig c` is the globally shared class object `c`;
`copyOf d` is a fresh `type(name, bases, dict(d.__dict__))` structural copy;
`wrapped i d` is the result of decorator `i`'s `decorate` applied to `d`. -/
inductive ClassDesc where
  | orig (c : Nat)
  | copyOf (d : ClassDesc)
  | wrapped (i : Nat) (d : ClassDesc)
deriving DecidableEq

/-- Runtime values: `vnone` is Python `None`, `sentinel` is the module-level
`NOT_RESOLVED` singleton of `_not_resolved.py`, and `obj id cls tr` is an
instance with allocation identity `id`, effective class `cls`, and
truthiness `tr` (the result of `__bool__`). -/
inductive Value where
  | vnone
  | sentinel
  | obj (id : Nat) (cls : ClassDesc) (tr : Bool)
deriving DecidableEq

/-- Python truthiness: `None` is falsy, `NOT_RESOLVED.__bool__` returns
`False`, an instance reports its `__bool__` flag. -/
def Value.truthy : Value → Bool
  | .vnone => false
  | .sentinel => false
  | .obj _ _ t => t

/-- A `**kwargs` dictionary: parameter name ↦ value. -/
def KwArgs : Type := Nat → Option Value

/-- The empty kwargs dictionary. -/
def KwArgs.empty : KwArgs := fun _ => none

/-- Dictionary item assignment `kw[n] = v`. -/
def KwArgs.insert (kw : KwArgs) (n : Nat) (v : Value) : KwArgs :=
  fun m => if m = n then some v else kw m

/-- Dictionary `a.update(b)`: entries of `b` win. -/
def KwArgs.update (a b : KwArgs) : KwArgs :=
  fun n => match b n with
    | some v => some v
    | none => a n

/-- Request keys of the list-valued container: a plain class `cls n`, a
parameterized generic `generic o a` (origin class `o` applied to the type
argument `a`), an `Annotated[k, ...]` wrapper, and a `ClassVar[k]` marker. -/
inductive Key where
  | cls (n : Nat)
  | generic (o a : Nat)
  | annotated (k : Key)
  | classVar (k : Key)
deriving DecidableEq

/-- From `_is_class_var.py`: true when `get_origin` is `ClassVar`, recursing
through `Annotated` arguments; plain classes and parameterized generics have
a non-`ClassVar`, non-`Annotated` origin and yield `false`. -/
def Key.isClassVar : Key → Bool
  | .classVar _ => true
  | .annotated k => k.isClassVar
  | _ => false

/-- A declared parameter of a producer's signature: its name and its type
annotation (`none` stands for `inspect.Parameter.empty`). -/
structure Param (κ : Type) where
  name : Nat
  annot : Option κ

/-- The implementation of a registration target: either a callable with a
declared signature and a semantic function (allocation counter, positional
arguments, keyword arguments ↦ produced value), or a plain non-callable
value. -/
inductive TargetImpl (κ : Type) where
  | callable (params : List (Param κ)) (f : Nat → List Value → KwArgs → Value)
  | value (v : Value)

/-- A registration target.  `tid` is the target's Python identity, which is
what `Dependency.__eq__` compares. -/
structure Target (κ : Type) where
  tid : Nat
  impl : TargetImpl κ

/-- From `_dependency.py`: a binding of a target with `cached` and `autowire`
flags and the memo field `instance` (named `inst` here because `instance` is
a Lean keyword), which the Python class initializes to `None`. -/
structure Dependency (κ : Type) where
  target : Target κ
  cached : Bool
  autowire : Bool
  inst : Value := Value.vnone

/-- From `_dependency.py`, `Dependency.resolve`: return the memo when
`self.cached and self.instance` (truthiness!), otherwise invoke a callable
target (consuming one allocation id) or take a non-callable target as a
literal, storing the result in `self.instance` unconditionally.  Returns
(value, updated binding, updated allocation counter). -/
def Dependency.resolve {κ : Type} (d : Dependency κ) (alloc : Nat)
    (args : List Value) (kw : KwArgs) : Value × Dependency κ × Nat :=
  if d.cached && d.inst.truthy then (d.inst, d, alloc)
  else match d.target.impl with
    | .callable _ f =>
        let v := f alloc args kw
        (v, { d with inst := v }, alloc + 1)
    | .value v => (v, { d with inst := v }, alloc)

/-- Association-list lookup with `dict` semantics (first, hence unique,
occurrence of the key). -/
def lookupA {κ α : Type} [DecidableEq κ] : List (κ × α) → κ → Option α
  | [], _ => none
  | (k, v) :: t, k2 => if k = k2 then some v else lookupA t k2

/-- Association-list store with `dict` semantics: update in place, or append
at the end when the key is new (insertion order). -/
def setA {κ α : Type} [DecidableEq κ] : List (κ × α) → κ → α → List (κ × α)
  | [], k2, v2 => [(k2, v2)]
  | (k, v) :: t, k2, v2 =>
      if k = k2 then (k2, v2) :: t else (k, v) :: setA t k2 v2

/-- Association-list `del d[k]`. -/
def eraseA {κ α : Type} [DecidableEq κ] : List (κ × α) → κ → List (κ × α)
  | [], _ => []
  | (k, v) :: t, k2 => if k = k2 then t else (k, v) :: eraseA t k2

/-- Dictionary key-membership test (`k in d`). -/
def hasKeyA {κ α : Type} [DecidableEq κ] (t : List (κ × α)) (k : κ) : Bool :=
  (lookupA t k).isSome

/-- The bindings-by-key table of the list-valued container. -/
def Table : Type := List (Key × List (Dependency Key))

instance : DecidableEq Key := inferInstance

/-- Python `list.remove(x)` for dependencies compared by `__eq__`, i.e. by
target identity: drop the first binding whose target id matches. -/
def removeFirstTid (tid : Nat) : List (Dependency Key) → List (Dependency Key)
  | [] => []
  | d :: ds => if d.target.tid = tid then ds else d :: removeFirstTid tid ds

/-- Signature parameters of a target: `inspect.signature` on a callable, and
`{}` for a non-callable (the resolver checks `callable` first). -/
def Target.params (t : Target Key) : List (Param Key) :=
  match t.impl with
  | .callable ps _ => ps
  | .value _ => []

/-- One pass of the parameter loop of `Resolver.resolve` (lines 57-63 of
`_resolver.py`): for each parameter whose annotation is a key of the table,
bind the caller-supplied kwarg when present, otherwise resolve the
annotation recursively (with no kwargs) through `recf`.  The state threads
the accumulated `annotation_kwargs`, the table, and the allocation counter;
`none` aborts (a propagating failure inside a recursive resolution). -/
def paramFold (recf : Table → Nat → Key → Option (Value × Table × Nat))
    (kwargs : KwArgs) (ps : List (Param Key)) (t : Table) (alloc : Nat) :
    Option (KwArgs × Table × Nat) :=
  ps.foldl
    (fun st p =>
      match st with
      | none => none
      | some (acc, t, a) =>
          match p.annot with
          | none => some (acc, t, a)
          | some ann =>
              if hasKeyA t ann then
                match kwargs p.name with
                | some v => some (acc.insert p.name v, t, a)
                | none =>
                    match recf t a ann with
                    | none => none
                    | some (v, t2, a2) => some (acc.insert p.name v, t2, a2)
              else some (acc, t, a))
    (some (KwArgs.empty, t, alloc))

/-- From `_resolver.py`, `Resolver.resolve`: look the key up (falling back
through one `Annotated` layer when the direct list is missing or empty),
return `unres` when nothing is found, otherwise take the last binding of the
list; an `autowire=False` binding is resolved with no arguments at all,
otherwise the declared parameters are autowired (`paramFold`), caller kwargs
are merged on top, and the binding is invoked.  The updated binding is
written back at its list position (Python mutates it in place).  `none` is a
propagating failure (fuel models the Python call stack). -/
def resolverResolve (unres : Value) :
    Nat → Table → Nat → Key → KwArgs → Option (Value × Table × Nat)
  | 0, _, _, _, _ => none
  | fuel + 1, t, alloc, name, kwargs =>
      let dl0 := (lookupA t name).getD []
      let lkey := if dl0.isEmpty then
          match name with
          | .annotated k => k
          | _ => name
        else name
      let dl := (lookupA t lkey).getD []
      match dl.getLast? with
      | none => some (unres, t, alloc)
      | some d =>
          if d.autowire = false then
            let r := d.resolve alloc [] KwArgs.empty
            some (r.1, setA t lkey (dl.dropLast ++ [r.2.1]), r.2.2)
          else
            match paramFold
                (fun t2 a2 k2 =>
                  resolverResolve unres fuel t2 a2 k2 KwArgs.empty)
                kwargs d.target.params t alloc with
            | none => none
            | some (annotKw, t2, a2) =>
                let kw1 := annotKw.update kwargs
                let dl2 := (lookupA t2 lkey).getD []
                match dl2.getLast? with
                | none => some (unres, t2, a2)
                | some dcur =>
                    let r := dcur.resolve a2 [] kw1
                    some (r.1, setA t2 lkey (dl2.dropLast ++ [r.2.1]), r.2.2)

/-- The decorator (behavior-transformer) table: request key ↦ ordered list of
decorator identities (`register_decorator` appends, duplicates allowed). -/
def DecTable : Type := List (Key × List Nat)

/-- From `_dependency_injection_container.py`: the container state of one
logical flow.  `base`/`decBase` are `_base_dependencies`/`_base_decorators`;
`stack`/`decStack` are this flow's `ContextVar` stacks with the top at the
head (Python appends at the end and reads `stack[-1]`).  The structural copy
performed by `__enter__` (`deps_list.copy()` for every key) is what licenses
the purely functional snapshot: writes inside a scope mutate only the freshly
copied lists of the top frame. -/
structure DIC.Container where
  base : Table
  stack : List Table
  decBase : DecTable
  decStack : List DecTable

/-- The `_dependencies` property: top of this flow's stack, else the base. -/
def DIC.active (c : DIC.Container) : Table :=
  match c.stack with
  | [] => c.base
  | t :: _ => t

/-- The `_dependencies` setter: replace the top of the stack, else the base. -/
def DIC.setActive (c : DIC.Container) (t : Table) : DIC.Container :=
  match c.stack with
  | [] => { c with base := t }
  | _ :: rest => { c with stack := t :: rest }

/-- The `_decorators` property. -/
def DIC.activeDecs (c : DIC.Container) : DecTable :=
  match c.decStack with
  | [] => c.decBase
  | t :: _ => t

/-- The `_decorators` setter. -/
def DIC.setActiveDecs (c : DIC.Container) (t : DecTable) : DIC.Container :=
  match c.decStack with
  | [] => { c with decBase := t }
  | _ :: rest => { c with decStack := t :: rest }

/-- List part of `register_dependency` (lines 163-166): the key's list (a
`defaultdict`, so a missing key denotes `[]`) with an existing equal-target
binding removed. -/
def DIC.regDepList (t : Table) (name : Key) (d : Dependency Key) :
    List (Dependency Key) :=
  let l := (lookupA t name).getD []
  if l.any (fun x => x.target.tid = d.target.tid) then
    removeFirstTid d.target.tid l
  else l

/-- Table part of `register_dependency` (lines 161-169): remove an existing
binding with the same target, then append the new binding. -/
def DIC.regDepTable (t : Table) (name : Key) (d : Dependency Key) : Table :=
  setA t name (DIC.regDepList t name d ++ [d])

/-- From `register_dependency` (lines 151-169): reject `ClassVar` keys with
a `TypeError` (`none`), otherwise update the active table. -/
def DIC.registerDependency (c : DIC.Container) (name : Key)
    (d : Dependency Key) : Option DIC.Container :=
  if name.isClassVar then none
  else some (DIC.setActive c (DIC.regDepTable (DIC.active c) name d))

/-- From `remove` (lines 194-224): error when the key is absent; with no
target, delete the whole list; with a target, error unless a binding with
that target is present, remove the first match, and delete the key when the
list becomes empty. -/
def DIC.remove (c : DIC.Container) (name : Key) (target : Option Nat) :
    Option DIC.Container :=
  if hasKeyA (DIC.active c) name = false then none
  else match target with
    | none => some (DIC.setActive c (eraseA (DIC.active c) name))
    | some tid =>
        if ((lookupA (DIC.active c) name).getD []).any
            (fun x => x.target.tid = tid) then
          if (removeFirstTid tid ((lookupA (DIC.active c) name).getD
              [])).isEmpty then
            some (DIC.setActive c (eraseA (DIC.active c) name))
          else
            some (DIC.setActive c (setA (DIC.active c) name
              (removeFirstTid tid ((lookupA (DIC.active c) name).getD []))))
        else none

/-- From `register_decorator` (lines 226-251): append the decorator to the
key's list in the active decorator table (the inheritance check on
`ClassDecorator` is outside the model: decorator identities stand for
already-validated transformers). -/
def DIC.registerDecorator (c : DIC.Container) (name : Key) (did : Nat) :
    DIC.Container :=
  DIC.setActiveDecs c
    (setA (DIC.activeDecs c) name
      (((lookupA (DIC.activeDecs c) name).getD []) ++ [did]))

/-- From `resolve_decorators` (lines 253-272): the key's transformer list in
registration order (instantiating a transformer given as a class does not
change its identity in this model). -/
def DIC.resolveDecorators (c : DIC.Container) (name : Key) : List Nat :=
  (lookupA (DIC.activeDecs c) name).getD []

/-- From `__contains__` (lines 377-378): the key maps to a non-empty list in
the active table. -/
def DIC.has (c : DIC.Container) (name : Key) : Bool :=
  match lookupA (DIC.active c) name with
  | some l => !l.isEmpty
  | none => false

/-- From `__enter__` (lines 397-410): push a structural copy of the active
bindings table and of the active decorator table onto this flow's stacks. -/
def DIC.enterScope (c : DIC.Container) : DIC.Container :=
  { c with stack := DIC.active c :: c.stack,
           decStack := DIC.activeDecs c :: c.decStack }

/-- From `__exit__` (lines 412-428): pop each stack when non-empty. -/
def DIC.exitScope (c : DIC.Container) : DIC.Container :=
  { c with stack := c.stack.tail, decStack := c.decStack.tail }

/-- The class-wrapping fold of `_apply_decorators` (lines 310-320): start
from a structural copy of the instance's class and apply the transformers in
reverse registration order, so the first-registered transformer ends up
outermost. -/
def wrapAll (ds : List Nat) (cls : ClassDesc) : ClassDesc :=
  ds.reverse.foldl (fun acc i => ClassDesc.wrapped i acc) (ClassDesc.copyOf cls)

/-- From `_apply_decorators` (lines 306-322): skipped entirely when the
resolved value is `None`; otherwise, when the request key has transformers,
swap the instance's class for the fully wrapped copy. -/
def DIC.applyDecorators (c : DIC.Container) (v : Value) (name : Key) : Value :=
  match v with
  | .vnone => v
  | v =>
      let ds := DIC.resolveDecorators c name
      if ds.isEmpty then v
      else match v with
        | .obj i cls tr => .obj i (wrapAll ds cls) tr
        | v => v

/-- From `resolve` (lines 274-290): run the resolver with the `NOT_RESOLVED`
sentinel over the active table, write the mutated table back, raise
(`some (none, ..)`) on the sentinel, otherwise apply the behavior pipeline.
The outer `none` is a propagating failure (exhausted recursion). -/
def DIC.resolve (fuel : Nat) (c : DIC.Container) (alloc : Nat) (name : Key)
    (kwargs : KwArgs) : Option (Option Value × DIC.Container × Nat) :=
  match resolverResolve Value.sentinel fuel (DIC.active c) alloc name kwargs with
  | none => none
  | some (v, t, a) =>
      let c2 := DIC.setActive c t
      if v = Value.sentinel then some (none, c2, a)
      else some (some (DIC.applyDecorators c2 v name), c2, a)

/-- From `resolve_optional` (lines 292-304): like `resolve` but with a
caller-supplied unresolved value returned as-is (identity-checked), and the
behavior pipeline applied otherwise. -/
def DIC.resolveOptional (fuel : Nat) (c : DIC.Container) (alloc : Nat)
    (name : Key) (unres : Value) (kwargs : KwArgs) :
    Option (Value × DIC.Container × Nat) :=
  match resolverResolve unres fuel (DIC.active c) alloc name kwargs with
  | none => none
  | some (v, t, a) =>
      let c2 := DIC.setActive c t
      if v = unres then some (v, c2, a)
      else some (DIC.applyDecorators c2 v name, c2, a)

/-- Parameter loop of `resolve_all` (lines 360-366): like the resolver's,
but sub-dependencies go through the container's `resolve_optional` (default
unresolved value `None`), so the behavior pipeline does apply to them. -/
def DIC.paramFoldAll (fuel : Nat) (kwargs : KwArgs) (ps : List (Param Key))
    (c : DIC.Container) (alloc : Nat) :
    Option (KwArgs × DIC.Container × Nat) :=
  ps.foldl
    (fun st p =>
      match st with
      | none => none
      | some (acc, c, a) =>
          match p.annot with
          | none => some (acc, c, a)
          | some ann =>
              if hasKeyA (DIC.active c) ann then
                match kwargs p.name with
                | some v => some (acc.insert p.name v, c, a)
                | none =>
                    match DIC.resolveOptional fuel c a ann Value.vnone
                        KwArgs.empty with
                    | none => none
                    | some (v, c2, a2) => some (acc.insert p.name v, c2, a2)
              else some (acc, c, a))
    (some (KwArgs.empty, c, alloc))

/-- Replace the binding at index `i` of `lkey`'s list in the active table
(the write-back for Python's in-place mutation of a list element). -/
def DIC.updateAt (c : DIC.Container) (lkey : Key) (i : Nat)
    (d : Dependency Key) : DIC.Container :=
  DIC.setActive c
    (setA (DIC.active c) lkey (((lookupA (DIC.active c) lkey).getD []).set i d))

/-- Body of the `resolve_all` generator loop (lines 350-368), iterating the
binding list by descending index (`reversed`, newest first) and re-fetching
the current element from the threaded table: an `autowire=False` binding is
invoked with no arguments; a non-callable target is yielded raw (no memo
write); otherwise parameters are autowired through `resolve_optional`,
caller kwargs merged on top, and the binding invoked and written back.
No behavior pipeline is applied to the yielded values. -/
def DIC.resolveAllGo (fuel : Nat) (lkey : Key) (kwargs : KwArgs) :
    Nat → DIC.Container → Nat → List Value →
    Option (List Value × DIC.Container × Nat)
  | 0, c, alloc, acc => some (acc, c, alloc)
  | i + 1, c, alloc, acc =>
      match ((lookupA (DIC.active c) lkey).getD []).get? i with
      | none => none
      | some d =>
          if d.autowire = false then
            let r := d.resolve alloc [] KwArgs.empty
            DIC.resolveAllGo fuel lkey kwargs i (DIC.updateAt c lkey i r.2.1)
              r.2.2 (acc ++ [r.1])
          else match d.target.impl with
            | .value v => DIC.resolveAllGo fuel lkey kwargs i c alloc (acc ++ [v])
            | .callable ps _ =>
                match DIC.paramFoldAll fuel kwargs ps c alloc with
                | none => none
                | some (annotKw, c2, a2) =>
                    let kw1 := annotKw.update kwargs
                    match ((lookupA (DIC.active c2) lkey).getD []).get? i with
                    | none => none
                    | some dcur =>
                        let r := dcur.resolve a2 [] kw1
                        DIC.resolveAllGo fuel lkey kwargs i
                          (DIC.updateAt c2 lkey i r.2.1) r.2.2 (acc ++ [r.1])

/-- From `resolve_all` (lines 324-368): look the key up with the same
`Annotated` fallback as the resolver and drain the generator (the lazy,
restartable sequence is modelled by the list of its yields). -/
def DIC.resolveAll (fuel : Nat) (c : DIC.Container) (alloc : Nat) (name : Key)
    (kwargs : KwArgs) : Option (List Value × DIC.Container × Nat) :=
  let t := DIC.active c
  let dl0 := (lookupA t name).getD []
  let lkey := if dl0.isEmpty then
      match name with
      | .annotated k => k
      | _ => name
    else name
  let dl := (lookupA t lkey).getD []
  DIC.resolveAllGo fuel lkey kwargs dl.length c alloc []

/-- The binding that a `resolve(K)` call would select: the last entry of the
key's active list, after the resolver's `Annotated` fallback. -/
def DIC.selectedBinding (c : DIC.Container) (name : Key) :
    Option (Dependency Key) :=
  let t := DIC.active c
  let dl0 := (lookupA t name).getD []
  let lkey := if dl0.isEmpty then
      match name with
      | .annotated k => k
      | _ => name
    else name
  ((lookupA t lkey).getD []).getLast?

/-- Request keys of the single-binding container of `_dependency_container.py`:
a plain class or a single-argument parameterized generic (`Repository[User]`
is `generic o a`; `get_origin` of a plain class is `None`).  `Annotated`
special forms are outside this model's key space. -/
inductive GKey where
  | cls (n : Nat)
  | generic (o a : Nat)
deriving DecidableEq

/-- The bindings table of the single-binding container: one binding per key,
insertion-ordered (the generic fallback iterates the keys in this order). -/
def DTable : Type := List (GKey × Dependency GKey)

/-- Class metadata and bare-construction semantics for the single-binding
container: `origBases c` is class `c`'s `__orig_bases__` tuple, and
`con c alloc args` is the result of calling the bare class `c` directly with
positional arguments (consuming one allocation id at the call site). -/
structure DC.World where
  origBases : Nat → List GKey
  con : Nat → Nat → List Value → Value

/-- The candidate scan of the generic fallback (lines 116-127): the
registered keys, in table order, that are plain classes whose
`__orig_bases__` contain the requested parameterized key. -/
def DC.candidates (w : DC.World) (t : DTable) (name : GKey) : List Nat :=
  (t.map Prod.fst).filterMap
    (fun k =>
      match k with
      | .cls c => if (w.origBases c).contains name then some c else none
      | .generic _ _ => none)

/-- Parameter loop of the registered-binding path (lines 150-157): the old
container autowires every registered annotation with no caller-kwargs
short-circuit (caller kwargs are merged afterwards), `recf` being the
recursive `resolve_optional`.  `none` aborts (a propagating failure). -/
def DC.paramFold (recf : DTable → Nat → GKey → Option (Value × DTable × Nat))
    (ps : List (Param GKey)) (t : DTable) (alloc : Nat) :
    Option (KwArgs × DTable × Nat) :=
  ps.foldl
    (fun st p =>
      match st with
      | none => none
      | some (acc, t, a) =>
          match p.annot with
          | none => some (acc, t, a)
          | some ann =>
              if hasKeyA t ann then
                match recf t a ann with
                | none => none
                | some (v, t2, a2) => some (acc.insert p.name v, t2, a2)
              else some (acc, t, a))
    (some (KwArgs.empty, t, alloc))

/-- One step of the `for registered_type in self._dependencies` scan of the
generic fallback (lines 116-127): once an attempt has returned, later
candidates are not tried; otherwise try the next candidate. -/
def DC.tryCandidate (recf : Nat → Option (Value × DTable × Nat))
    (acc : Option (Value × DTable × Nat)) (c : Nat) :
    Option (Value × DTable × Nat) :=
  match acc with
  | some r => some r
  | none => recf c

/-- From `resolve_optional` of `_dependency_container.py` (lines 96-159).
For a registered key: an `autowire=False` binding is invoked bare; otherwise
`signature` demands a callable target (`none` models the `TypeError` for a
non-callable), registered annotations are autowired recursively, caller
kwargs merged on top, and the binding invoked and written back.  For an
absent plain class the result is Python `None` (`vnone`).  For an absent
parameterized key: first try each registered concrete class whose
`__orig_bases__` contain the key, in table order, returning the first
attempt that does not raise (`with suppress(TypeError, AttributeError)`;
state changes of a raising attempt are not modelled, no claim exercises
them); otherwise use the registered origin's target — or the bare origin
class — as a factory, resolve the type argument as a key (falling back to
calling the bare argument class when the result is falsy), and call the
factory positionally when all arguments are truthy, yielding `None`
otherwise.  The outer `none` is a propagating exception or exhausted fuel. -/
def DC.resolveOptional (w : DC.World) :
    Nat → DTable → Nat → GKey → KwArgs → Option (Value × DTable × Nat)
  | 0, _, _, _, _ => none
  | fuel + 1, t, alloc, name, kwargs =>
      match lookupA t name with
      | some d =>
          if d.autowire = false then
            let r := d.resolve alloc [] KwArgs.empty
            some (r.1, setA t name r.2.1, r.2.2)
          else
            match d.target.impl with
            | .value _ => none
            | .callable ps _ =>
                match DC.paramFold
                    (fun t2 a2 k2 =>
                      DC.resolveOptional w fuel t2 a2 k2 KwArgs.empty)
                    ps t alloc with
                | none => none
                | some (annotKw, t2, a2) =>
                    let kw1 := annotKw.update kwargs
                    match lookupA t2 name with
                    | none => none
                    | some dcur =>
                        let r := dcur.resolve a2 [] kw1
                        some (r.1, setA t2 name r.2.1, r.2.2)
      | none =>
          match name with
          | .cls _ => some (.vnone, t, alloc)
          | .generic o a =>
              let attempt := (DC.candidates w t name).foldl
                (DC.tryCandidate
                  (fun c => DC.resolveOptional w fuel t alloc (.cls c) kwargs))
                none
              match attempt with
              | some r => some r
              | none =>
                  match DC.resolveOptional w fuel t alloc (.cls a)
                      KwArgs.empty with
                  | none => none
                  | some (v1, t1, a1) =>
                      let arg := if v1.truthy then (v1, t1, a1)
                        else (w.con a a1 [], t1, a1 + 1)
                      if arg.1.truthy then
                        match lookupA arg.2.1 (.cls o) with
                        | some dep =>
                            match dep.target.impl with
                            | .callable _ f =>
                                some (f arg.2.2 [arg.1] KwArgs.empty,
                                  arg.2.1, arg.2.2 + 1)
                            | .value _ => none
                        | none =>
                            some (w.con o arg.2.2 [arg.1], arg.2.1,
                              arg.2.2 + 1)
                      else some (.vnone, arg.2.1, arg.2.2)

/-- From `copy` and `register_dependency` of
`_dependency_injection_container.py`, re-modelled with explicit list
identity to capture aliasing: the heap maps a list id to the binding list it
holds, and a container's table maps keys to list ids.  `copy()` builds
`type(self)(dependencies=dict(self.dependencies))`, a new dict over the very
same list objects. -/
structure Heap.State where
  lists : List (Nat × List (Dependency Key))
  nextId : Nat

/-- A container as seen by the heap model: key ↦ identity of its binding
list (both containers are taken outside any scope, so the table is the base
table). -/
structure Heap.Cont where
  table : List (Key × Nat)

/-- From `copy` (lines 383-384): the new container's dict is a shallow copy
of the entries — the same list identities. -/
def Heap.copyC (c : Heap.Cont) : Heap.Cont := ⟨c.table⟩

/-- From `register_dependency` (lines 151-169) in the heap model: reject
`ClassVar` keys; for a present key, mutate the shared list in place
(remove an equal-target binding, then append); for an absent key the
`defaultdict` allocates a fresh empty list first. -/
def Heap.registerDependency (h : Heap.State) (c : Heap.Cont) (name : Key)
    (d : Dependency Key) : Option (Heap.State × Heap.Cont) :=
  if name.isClassVar then none
  else match lookupA c.table name with
    | some lid =>
        let l := (lookupA h.lists lid).getD []
        let l1 := if l.any (fun x => x.target.tid = d.target.tid) then
            removeFirstTid d.target.tid l
          else l
        some ({ h with lists := setA h.lists lid (l1 ++ [d]) }, c)
    | none =>
        some ({ lists := setA h.lists h.nextId [d], nextId := h.nextId + 1 },
          ⟨setA c.table name h.nextId⟩)

/-- The binding list a `resolve(K)` on this container reads (dereferencing
the shared heap). -/
def Heap.bindingList (h : Heap.State) (c : Heap.Cont) (name : Key) :
    Option (List (Dependency Key)) :=
  (lookupA c.table name).bind (fun lid => lookupA h.lists lid)

/-- The target identities of the binding list a `resolve(K)` reads — the
observable shape of the list (bindings contain semantic functions, so the
lists themselves are compared through their target ids). -/
def Heap.bindingTids (h : Heap.State) (c : Heap.Cont) (name : Key) :
    Option (List Nat) :=
  (Heap.bindingList h c name).map (List.map (fun d => d.target.tid))

/-- The container operations a scope body may perform: registration,
removal, decorator registration, and nested scope entry/exit. -/
inductive FOp where
  | regD (name : Key) (d : Dependency Key)
  | rem (name : Key) (target : Option Nat)
  | regDec (name : Key) (did : Nat)
  | enterOp
  | exitOp

/-- Apply one operation to a container (`none` when the Python call raises). -/
def runOp1 (c : DIC.Container) : FOp → Option DIC.Container
  | .regD n d => DIC.registerDependency c n d
  | .rem n tg => DIC.remove c n tg
  | .regDec n i => some (DIC.registerDecorator c n i)
  | .enterOp => some (DIC.enterScope c)
  | .exitOp => some (DIC.exitScope c)

/-- Run a sequence of operations, stopping at the first raise. -/
def runF : DIC.Container → List FOp → Option DIC.Container
  | c, [] => some c
  | c, op :: ops =>
      match runOp1 c op with
      | none => none
      | some c2 => runF c2 ops

/-- Relative scope depth after a well-nested operation sequence: `none` when
some exit would pop a frame the sequence did not push below depth `d`.
`net 0 ops = some 0` says the sequence is a well-nested scope body. -/
def net : Nat → List FOp → Option Nat
  | d, [] => some d
  | d, .enterOp :: ops => net (d + 1) ops
  | 0, .exitOp :: _ => none
  | d + 1, .exitOp :: ops => net d ops
  | d, _ :: ops => net d ops

/-- An operation is a plain table write (no scope entry/exit). -/
def FOp.isWrite : FOp → Bool
  | .regD _ _ => true
  | .rem _ _ => true
  | .regDec _ _ => true
  | _ => false

/-- A sequence of plain table writes. -/
def writesOnly (ops : List FOp) : Bool := ops.all FOp.isWrite

/-- Global state shared by several logical flows: the base tables are one
shared mutable resource, while each flow's `ContextVar` holds that flow's
own scope stacks (an unset `ContextVar`, the default `None`, is the absent
entry, read as the empty stack).  This models flows whose execution contexts
were created before any scope stack existed, as `asyncio` tasks spawned from
an unscoped caller are: each flow's first `enter` creates its own stack. -/
structure MState where
  base : Table
  decBase : DecTable
  flowStacks : List (Nat × List Table)
  decFlowStacks : List (Nat × List DecTable)

/-- The container as flow `f` sees it: shared bases, own stacks. -/
def MState.view (s : MState) (f : Nat) : DIC.Container :=
  ⟨s.base, (lookupA s.flowStacks f).getD [], s.decBase,
    (lookupA s.decFlowStacks f).getD []⟩

/-- One operation performed by flow `f`: apply the single-flow semantics to
`f`'s view and write the resulting base and `f`'s stacks back. -/
def mstep (s : MState) (f : Nat) (op : FOp) : Option MState :=
  match runOp1 (s.view f) op with
  | none => none
  | some c =>
      some ⟨c.base, c.decBase, setA s.flowStacks f c.stack,
        setA s.decFlowStacks f c.decStack⟩

/-- Run an interleaved trace of flow-tagged operations. -/
def mrun : MState → List (Nat × FOp) → Option MState
  | s, [] => some s
  | s, (f, op) :: tr =>
      match mstep s f op with
      | none => none
      | some s2 => mrun s2 tr

/-- The subtrace of operations performed by flow `f`. -/
def projOps (f : Nat) (tr : List (Nat × FOp)) : List FOp :=
  tr.filterMap (fun p => if p.1 = f then some p.2 else none)

/-- Tag every operation of a sequence with the flow that performs it. -/
def tagged (f : Nat) (ops : List FOp) : List (Nat × FOp) :=
  ops.map (fun op => (f, op))

/-- A complete scope block: enter, perform the body, exit. -/
def scopeBlock (ops : List FOp) : List FOp :=
  FOp.enterOp :: ops ++ [FOp.exitOp]

/-- An operation is safe to run in a multi-flow setting when it cannot write
the shared base tables: scope entry/exit never touch them, and a plain write
targets the flow's own top frame whenever the flow's stacks are non-empty. -/
def SafeOp (c : DIC.Container) (op : FOp) : Prop :=
  op = FOp.enterOp ∨ op = FOp.exitOp ∨ (c.stack ≠ [] ∧ c.decStack ≠ [])

/-- Every operation of the trace is safe at the state where it executes. -/
def SafeTrace (s : MState) : List (Nat × FOp) → Prop
  | [] => True
  | (f, op) :: tr =>
      SafeOp (s.view f) op ∧ ∀ s2, mstep s f op = some s2 → SafeTrace s2 tr

/-- Interleaving of two sequences (the order within each is preserved). -/
inductive Interleave {α : Type} : List α → List α → List α → Prop where
  | nil : Interleave [] [] []
  | left {x : α} {xs ys zs : List α} :
      Interleave xs ys zs → Interleave (x :: xs) ys (x :: zs)
  | right {y : α} {xs ys zs : List α} :
      Interleave xs ys zs → Interleave xs (y :: ys) (y :: zs)

/-- Two consecutive `resolve(K)` calls on a container (no caller kwargs),
returning the pair of resolved values. -/
def DIC.resolveTwice (fuel : Nat) (c : DIC.Container) (alloc : Nat) (K : Key) :
    Option (Option Value × Option Value) :=
  (DIC.resolve fuel c alloc K KwArgs.empty).bind (fun r =>
    (DIC.resolve fuel r.2.1 r.2.2 K KwArgs.empty).map (fun r2 => (r.1, r2.1)))

/-- Test fixture: a producer that allocates a fresh falsy instance of class
`orig 0` on every call (Python: an object whose `__bool__` returns False). -/
def exFalsyF : Nat → List Value → KwArgs → Value :=
  fun a _ _ => Value.obj a (ClassDesc.orig 0) false

/-- Test fixture: a `cached=True` binding over the falsy producer. -/
def exDepFalsy : Dependency Key :=
  ⟨⟨0, .callable [] exFalsyF⟩, true, true, Value.vnone⟩

/-- Test fixture: a container whose key `cls 0` is bound to the falsy cached
producer. -/
def exCFalsy : DIC.Container :=
  ⟨[(Key.cls 0, [exDepFalsy])], [], [], []⟩

/-- Test fixture: a producer that allocates a fresh truthy instance of class
`orig 0` on every call. -/
def exFreshF : Nat → List Value → KwArgs → Value :=
  fun a _ _ => Value.obj a (ClassDesc.orig 0) true

/-- Test fixture: a binding whose producer echoes the caller-supplied kwarg
named `0` when present and produces a fresh instance otherwise (used to
observe which kwargs actually reach the producer). -/
def exEchoF : Nat → List Value → KwArgs → Value :=
  fun a _ kw =>
    match kw 0 with
    | some v => v
    | none => Value.obj a (ClassDesc.orig 9) true

/-- Test fixture: an `autowire=False` binding over the echo producer. -/
def exDepEcho : Dependency Key :=
  ⟨⟨0, .callable [Param.mk 0 (some (Key.cls 1))] exEchoF⟩, false, false,
    Value.vnone⟩

/-- Test fixture: a container whose key `cls 0` is bound to the echo
producer with `autowire=False`. -/
def exCEcho : DIC.Container :=
  ⟨[(Key.cls 0, [exDepEcho])], [], [], []⟩

/-- Test fixture: caller kwargs supplying parameter `0`. -/
def exKw : KwArgs := KwArgs.insert KwArgs.empty 0 (Value.obj 7 (ClassDesc.orig 1) true)

/-- Test fixture: a fresh `cached=False` binding over the fresh-truthy
producer, for claims about distinct allocations. -/
def exDepFresh : Dependency Key :=
  ⟨⟨0, .callable [] exFreshF⟩, false, true, Value.vnone⟩

/-- Test fixture: a fresh `cached=True` binding over the fresh-truthy
producer. -/
def exDepCachedT : Dependency Key :=
  ⟨⟨0, .callable [] exFreshF⟩, true, true, Value.vnone⟩

/-- Test fixture: containers for the caching claims. -/
def exCFresh : DIC.Container := ⟨[(Key.cls 0, [exDepFresh])], [], [], []⟩

/-- Test fixture: container with the cached truthy binding. -/
def exCCachedT : DIC.Container := ⟨[(Key.cls 0, [exDepCachedT])], [], [], []⟩

/-- Test fixture: a producer marking its values as coming from `P1`. -/
def exF1 : Nat → List Value → KwArgs → Value :=
  fun a _ _ => Value.obj a (ClassDesc.orig 1) true

/-- Test fixture: a producer marking its values as coming from `P2`. -/
def exF2 : Nat → List Value → KwArgs → Value :=
  fun a _ _ => Value.obj a (ClassDesc.orig 2) true

/-- Test fixture: target `P1` with identity 1. -/
def exT1 : Target Key := ⟨1, .callable [] exF1⟩

/-- Test fixture: target `P2` with identity 2. -/
def exT2 : Target Key := ⟨2, .callable [] exF2⟩

/-- Test fixture: an empty container. -/
def exCEmpty : DIC.Container := ⟨[], [], [], []⟩

/-- Test fixture: a plain binding used inside scope bodies. -/
def exDepScope : Dependency Key :=
  ⟨⟨8, .callable [] exFreshF⟩, false, true, Value.vnone⟩

/-- Test fixture: a producer of instances of class `orig 1` (for claims that
distinguish the request key from the produced type). -/
def exProd1F : Nat → List Value → KwArgs → Value :=
  fun a _ _ => Value.obj a (ClassDesc.orig 1) true

/-- Test fixture: a binding under request key `cls 0` producing instances of
class `orig 1`. -/
def exDepProd1 : Dependency Key :=
  ⟨⟨3, .callable [] exProd1F⟩, false, true, Value.vnone⟩

/-- Test fixture: transformers registered for the produced type `cls 1`, not
for the request key `cls 0`. -/
def exC7mismatch : DIC.Container :=
  ⟨[(Key.cls 0, [exDepProd1])], [], [(Key.cls 1, [7])], []⟩

/-- Test fixture: two transformers registered, in order, for the request key
`cls 0`. -/
def exC7order : DIC.Container :=
  ⟨[(Key.cls 0, [exDepProd1])], [], [(Key.cls 0, [1, 2])], []⟩

/-- Test fixture: a producer that returns `None`. -/
def exNoneF : Nat → List Value → KwArgs → Value := fun _ _ _ => Value.vnone

/-- Test fixture: a binding whose producer returns `None`. -/
def exDepNone : Dependency Key :=
  ⟨⟨4, .callable [] exNoneF⟩, false, true, Value.vnone⟩

/-- Test fixture: key `cls 0` bound to the `None` producer, with a
transformer registered for the very same key (to observe that the pipeline
is skipped on `None`). -/
def exCNone : DIC.Container :=
  ⟨[(Key.cls 0, [exDepNone])], [], [(Key.cls 0, [5])], []⟩

/-- Test fixture: the generic-fallback world — class 10 (`UserRepository`)
declares `__orig_bases__ = (Repository[User],)` with `Repository = 1` and
`User = 2`; bare construction is unused. -/
def exW : DC.World :=
  ⟨fun n => if n = 10 then [GKey.generic 1 2] else [],
   fun _ _ _ => Value.vnone⟩

/-- Test fixture: producer of the concrete `UserRepository`. -/
def exGF : Nat → List Value → KwArgs → Value :=
  fun a _ _ => Value.obj a (ClassDesc.orig 10) true

/-- Test fixture: the binding of the concrete `UserRepository`. -/
def exGDep : Dependency GKey := ⟨⟨6, .callable [] exGF⟩, false, true, Value.vnone⟩

/-- Test fixture: a table registering only the concrete class 10, never the
parameterized key `generic 1 2`. -/
def exGT : DTable := [(GKey.cls 10, exGDep)]

/-- Test fixture: heap binding `P1` (target id 1). -/
def exHd1 : Dependency Key := ⟨⟨1, .callable [] exF1⟩, false, true, Value.vnone⟩

/-- Test fixture: heap binding `P2` (target id 2). -/
def exHd2 : Dependency Key := ⟨⟨2, .callable [] exF2⟩, false, true, Value.vnone⟩

/-- Test fixture: heap with one shared list holding `P1`'s binding. -/
def exH0 : Heap.State := ⟨[(0, [exHd1])], 1⟩

/-- Test fixture: the original container `R`, whose key `cls 0` points at
the shared list 0. -/
def exR : Heap.Cont := ⟨[(Key.cls 0, 0)]⟩

/-- Test fixture: the multi-flow initial state for the isolation claim — a
base table with key `cls 0` registered and no flow inside a scope. -/
def exMS : MState := ⟨[(Key.cls 0, [exDepFresh])], [], [], []⟩

/-- Test fixture: the interleaved trace in which flows 1 and 2 each enter a
scope, register a distinct binding, and exit. -/
def exTrace : List (Nat × FOp) :=
  [(1, .enterOp), (2, .enterOp),
   (1, .regD (Key.cls 1) exDepScope), (2, .regD (Key.cls 2) exDepScope),
   (1, .exitOp), (2, .exitOp)]

/-- Test fixture: a cached binding that already holds a truthy memoized
instance. -/
def exDepMemo : Dependency Key :=
  ⟨⟨0, .callable [] exFreshF⟩, true, true, Value.obj 5 (ClassDesc.orig 0) true⟩

/-- The position of one flow inside the scoped-block protocol: the block not
yet entered, inside the scope with the remaining writes and the final exit
(both of the flow's stacks non-empty), or finished. -/
def Phase (c : DIC.Container) (tro : List FOp) : Prop :=
  (∃ wops, tro = scopeBlock wops ∧ writesOnly wops = true) ∨
  (∃ wops, tro = wops ++ [FOp.exitOp] ∧ writesOnly wops = true ∧
    c.stack ≠ [] ∧ c.decStack ≠ []) ∨
  tro = []

/-- Test fixture: a well-nested scope body — register a binding, run a
nested scope that registers a decorator, then remove the binding again. -/
def exOps : List FOp :=
  [FOp.regD (Key.cls 1) exDepScope, FOp.enterOp,
   FOp.regDec (Key.cls 1) 3, FOp.exitOp, FOp.rem (Key.cls 1) none]

theorem lookupA_setA_self {κ α : Type} [DecidableEq κ] (t : List (κ × α))
    (k : κ) (v : α) : lookupA (setA t k v) k = some v := by
  induction t with
  | nil => simp [setA, lookupA]
  | cons h t ih =>
      obtain ⟨k1, v1⟩ := h
      by_cases hk : k1 = k <;> simp [setA, lookupA, hk, ih]

theorem lookupA_setA_ne {κ α : Type} [DecidableEq κ] (t : List (κ × α))
    (k k2 : κ) (v : α) (h : k ≠ k2) :
    lookupA (setA t k v) k2 = lookupA t k2 := by
  induction t with
  | nil => simp [setA, lookupA, h]
  | cons hd t ih =>
      obtain ⟨k1, v1⟩ := hd
      by_cases hk : k1 = k
      · subst hk
        simp [setA, lookupA, h]
      · simp [setA, lookupA, hk, ih]

theorem lastOfConcat {α : Type} (l : List α) (x : α) :
    (l ++ [x]).getLast? = some x := by
  induction l with
  | nil => rfl
  | cons a l ih =>
      cases l with
      | nil => rfl
      | cons b m => simpa using ih

theorem lastOfCons {α : Type} (a : α) (m : List α) (h : m ≠ []) :
    (a :: m).getLast? = m.getLast? := by
  cases m with
  | nil => exact absurd rfl h
  | cons b m => rfl

theorem removeFirstTid_last (tid : Nat) (l : List (Dependency Key))
    (d : Dependency Key) (h : ¬ d.target.tid = tid) :
    (removeFirstTid tid (l ++ [d])).getLast? = some d := by
  induction l with
  | nil => simp [removeFirstTid, h]
  | cons a l ih =>
      by_cases ha : a.target.tid = tid
      · simp [removeFirstTid, ha, lastOfConcat]
      · have hne : removeFirstTid tid (l ++ [d]) ≠ [] := by
          intro hemp
          rw [hemp] at ih
          simp at ih
        simp only [List.cons_append, removeFirstTid, ha, if_neg ha,
          ite_false, List.append_eq]
        rw [lastOfCons _ _ hne]
        exact ih

theorem paramFold_nil (recf : Table → Nat → Key → Option (Value × Table × Nat))
    (kwargs : KwArgs) (t : Table) (alloc : Nat) :
    paramFold recf kwargs [] t alloc = some (KwArgs.empty, t, alloc) := rfl

theorem kwUpdate_empty_empty :
    KwArgs.update KwArgs.empty KwArgs.empty = KwArgs.empty := rfl

theorem resolver_step_autowire (unres : Value) (fuel : Nat) (t : Table)
    (alloc : Nat) (K : Key) (kwargs : KwArgs) (l : List (Dependency Key))
    (d : Dependency Key) (f : Nat → List Value → KwArgs → Value)
    (hl : lookupA t K = some l) (hlast : l.getLast? = some d)
    (himpl : d.target.impl = .callable [] f) (haw : d.autowire = true) :
    resolverResolve unres (fuel + 1) t alloc K kwargs =
      some ((d.resolve alloc [] (KwArgs.update KwArgs.empty kwargs)).1,
        setA t K (l.dropLast ++
          [(d.resolve alloc [] (KwArgs.update KwArgs.empty kwargs)).2.1]),
        (d.resolve alloc [] (KwArgs.update KwArgs.empty kwargs)).2.2) := by
  have hne : l.isEmpty = false := by
    cases l
    · simp at hlast
    · rfl
  simp only [resolverResolve, hl, Option.getD_some, hne, Bool.false_eq_true,
    ite_false, if_false, hlast, haw, Target.params, himpl, paramFold_nil]
  simp [Dependency.resolve]

theorem resolver_step_noautowire (unres : Value) (fuel : Nat) (t : Table)
    (alloc : Nat) (K : Key) (kwargs : KwArgs) (l : List (Dependency Key))
    (d : Dependency Key)
    (hl : lookupA t K = some l) (hlast : l.getLast? = some d)
    (haw : d.autowire = false) :
    resolverResolve unres (fuel + 1) t alloc K kwargs =
      some ((d.resolve alloc [] KwArgs.empty).1,
        setA t K (l.dropLast ++ [(d.resolve alloc [] KwArgs.empty).2.1]),
        (d.resolve alloc [] KwArgs.empty).2.2) := by
  have hne : l.isEmpty = false := by
    cases l
    · simp at hlast
    · rfl
  simp only [resolverResolve, hl, Option.getD_some, hne, Bool.false_eq_true,
    ite_false, if_false, hlast, haw]
  simp [Dependency.resolve]

/-- C5 counterexample: the claim says a resolution of a `cached=False`
binding never sets the memo field, but `Dependency.resolve` stores its
result in `self.instance` unconditionally — resolving the fresh
`cached=False` binding `exDepFresh` once leaves a non-`None` instance. -/
theorem c5_memo_counterexample :
    exDepFresh.cached = false ∧
    (exDepFresh.resolve 0 [] KwArgs.empty).2.1.inst ≠ Value.vnone := by
  constructor
  · rfl
  · decide

/-- C5 (amended): `instance` is written by every producer-invoking
resolution, whatever the `cached` flag: when `cached` holds and the stored
instance is truthy, `resolve` short-circuits and returns the memo unchanged;
in every other case the stored instance afterwards equals the returned
value. -/
theorem c5_memo_amended {κ : Type} (d : Dependency κ) (alloc : Nat)
    (args : List Value) (kw : KwArgs) :
    (d.cached = true ∧ d.inst.truthy = true →
      d.resolve alloc args kw = (d.inst, d, alloc)) ∧
    (¬(d.cached = true ∧ d.inst.truthy = true) →
      (d.resolve alloc args kw).2.1.inst = (d.resolve alloc args kw).1) := by
  constructor
  · rintro ⟨h1, h2⟩
    simp [Dependency.resolve, h1, h2]
  · intro h
    have hb : (d.cached && d.inst.truthy) = false := by
      cases hc : d.cached <;> cases ht : d.inst.truthy <;> simp_all
    simp only [Dependency.resolve, hb, Bool.false_eq_true, if_false]
    cases himpl : d.target.impl <;> simp [himpl]

/-- C5 witness: both branches of the amended theorem at concrete bindings. -/
theorem c5_memo_witness :
    ((exDepCachedT.resolve 0 [] KwArgs.empty).2.1.inst =
      (exDepCachedT.resolve 0 [] KwArgs.empty).1) ∧
    (exDepMemo.resolve 0 [] KwArgs.empty = (exDepMemo.inst, exDepMemo, 0)) :=
  ⟨(c5_memo_amended exDepCachedT 0 [] KwArgs.empty).2 (by decide),
   (c5_memo_amended exDepMemo 0 [] KwArgs.empty).1 (by decide)⟩

theorem setA_setA {κ α : Type} [DecidableEq κ] (t : List (κ × α)) (k : κ)
    (v w : α) : setA (setA t k v) k w = setA t k w := by
  induction t with
  | nil => simp [setA]
  | cons hd t ih =>
      obtain ⟨k1, v1⟩ := hd
      by_cases hk : k1 = k <;> simp [setA, hk, ih]

theorem dropLastConcat {α : Type} (l : List α) (x : α) :
    (l ++ [x]).dropLast = l := by simp

theorem DIC.active_setActive (c : DIC.Container) (t : Table) :
    DIC.active (DIC.setActive c t) = t := by
  obtain ⟨b, st, db, ds⟩ := c
  cases st <;> rfl

theorem DIC.activeDecs_setActive (c : DIC.Container) (t : Table) :
    DIC.activeDecs (DIC.setActive c t) = DIC.activeDecs c := by
  obtain ⟨b, st, db, ds⟩ := c
  cases st <;> rfl

theorem DIC.setActive_setActive (c : DIC.Container) (t u : Table) :
    DIC.setActive (DIC.setActive c t) u = DIC.setActive c u := by
  obtain ⟨b, st, db, ds⟩ := c
  cases st <;> rfl

theorem DIC.resolveDecorators_setActive (c : DIC.Container) (t : Table)
    (K : Key) :
    DIC.resolveDecorators (DIC.setActive c t) K = DIC.resolveDecorators c K := by
  rw [DIC.resolveDecorators, DIC.activeDecs_setActive, DIC.resolveDecorators]

theorem DIC.applyDecorators_nil (c : DIC.Container) (v : Value) (K : Key)
    (h : DIC.resolveDecorators c K = []) : DIC.applyDecorators c v K = v := by
  cases v <;> simp [DIC.applyDecorators, h]

theorem dic_resolve_paramless (fuel : Nat) (c : DIC.Container) (alloc : Nat)
    (K : Key) (l : List (Dependency Key)) (d : Dependency Key)
    (f : Nat → List Value → KwArgs → Value)
    (hl : lookupA (DIC.active c) K = some l) (hlast : l.getLast? = some d)
    (himpl : d.target.impl = .callable [] f) (haw : d.autowire = true)
    (hns : (d.resolve alloc [] KwArgs.empty).1 ≠ Value.sentinel)
    (hdec : DIC.resolveDecorators c K = []) :
    DIC.resolve (fuel + 1) c alloc K KwArgs.empty =
      some (some (d.resolve alloc [] KwArgs.empty).1,
        DIC.setActive c (setA (DIC.active c) K
          (l.dropLast ++ [(d.resolve alloc [] KwArgs.empty).2.1])),
        (d.resolve alloc [] KwArgs.empty).2.2) := by
  have hres := resolver_step_autowire Value.sentinel fuel (DIC.active c)
    alloc K KwArgs.empty l d f hl hlast himpl haw
  rw [kwUpdate_empty_empty] at hres
  simp only [DIC.resolve, hres]
  rw [if_neg hns, DIC.applyDecorators_nil]
  rw [DIC.resolveDecorators_setActive]
  exact hdec

theorem dic_resolve_noautowire (fuel : Nat) (c : DIC.Container) (alloc : Nat)
    (K : Key) (kwargs : KwArgs) (l : List (Dependency Key))
    (d : Dependency Key)
    (hl : lookupA (DIC.active c) K = some l) (hlast : l.getLast? = some d)
    (haw : d.autowire = false)
    (hns : (d.resolve alloc [] KwArgs.empty).1 ≠ Value.sentinel)
    (hdec : DIC.resolveDecorators c K = []) :
    DIC.resolve (fuel + 1) c alloc K kwargs =
      some (some (d.resolve alloc [] KwArgs.empty).1,
        DIC.setActive c (setA (DIC.active c) K
          (l.dropLast ++ [(d.resolve alloc [] KwArgs.empty).2.1])),
        (d.resolve alloc [] KwArgs.empty).2.2) := by
  have hres := resolver_step_noautowire Value.sentinel fuel (DIC.active c)
    alloc K kwargs l d hl hlast haw
  simp only [DIC.resolve, hres]
  rw [if_neg hns, DIC.applyDecorators_nil]
  rw [DIC.resolveDecorators_setActive]
  exact hdec

/-- C3 counterexample: key `cls 0` is bound with `autowire=False` to a
producer that echoes the caller-supplied kwarg `0` when it receives one;
`resolve` with that kwarg supplied nevertheless returns the producer's
no-kwargs result, not the echo of the caller kwarg — the code calls
`dependency.resolve()` with no arguments, dropping the caller kwargs that
the claim says are passed through. -/
theorem c3_kwargs_counterexample :
    (DIC.resolve 1 exCEcho 0 (Key.cls 0) exKw).map (fun r => r.1) =
      some (some (Value.obj 0 (ClassDesc.orig 9) true)) ∧
    exEchoF 0 [] exKw = Value.obj 7 (ClassDesc.orig 1) true ∧
    some (Value.obj 0 (ClassDesc.orig 9) true) ≠
      some (Value.obj 7 (ClassDesc.orig 1) true) :=
  ⟨rfl, rfl, by decide⟩

/-- C3 (amended): for a binding whose `autowire` flag is false, `resolve`
short-circuits and invokes the producer with no arguments at all — the
result is the same for every caller-supplied kwargs dictionary, the
producer sees the empty kwargs, and no recursive resolution of the
producer's declared parameters takes place (only the selected binding's
own slot is touched). -/
theorem c3_noautowire_amended (fuel : Nat) (c : DIC.Container) (alloc : Nat)
    (K : Key) (l : List (Dependency Key)) (d : Dependency Key)
    (hl : lookupA (DIC.active c) K = some l) (hlast : l.getLast? = some d)
    (haw : d.autowire = false)
    (hns : (d.resolve alloc [] KwArgs.empty).1 ≠ Value.sentinel)
    (hdec : DIC.resolveDecorators c K = []) :
    ∀ kwargs : KwArgs, DIC.resolve (fuel + 1) c alloc K kwargs =
      some (some (d.resolve alloc [] KwArgs.empty).1,
        DIC.setActive c (setA (DIC.active c) K
          (l.dropLast ++ [(d.resolve alloc [] KwArgs.empty).2.1])),
        (d.resolve alloc [] KwArgs.empty).2.2) :=
  fun kwargs =>
    dic_resolve_noautowire fuel c alloc K kwargs l d hl hlast haw hns hdec

/-- C3 witness: the amended theorem applied to the echo fixture with the
caller kwarg supplied. -/
theorem c3_noautowire_witness :
    DIC.resolve 1 exCEcho 0 (Key.cls 0) exKw =
      some (some (exDepEcho.resolve 0 [] KwArgs.empty).1,
        DIC.setActive exCEcho (setA (DIC.active exCEcho) (Key.cls 0)
          (([exDepEcho]).dropLast ++
            [(exDepEcho.resolve 0 [] KwArgs.empty).2.1])),
        (exDepEcho.resolve 0 [] KwArgs.empty).2.2) :=
  c3_noautowire_amended 0 exCEcho 0 (Key.cls 0) [exDepEcho] exDepEcho
    rfl rfl rfl (by decide) rfl exKw

theorem dic_resolve_paramless_eq (fuel : Nat) (c : DIC.Container)
    (alloc : Nat) (K : Key) (l : List (Dependency Key)) (d : Dependency Key)
    (f : Nat → List Value → KwArgs → Value) (v : Value)
    (d' : Dependency Key) (a' : Nat)
    (hl : lookupA (DIC.active c) K = some l) (hlast : l.getLast? = some d)
    (himpl : d.target.impl = .callable [] f) (haw : d.autowire = true)
    (hdr : d.resolve alloc [] KwArgs.empty = (v, d', a'))
    (hns : v ≠ Value.sentinel) (hdec : DIC.resolveDecorators c K = []) :
    DIC.resolve (fuel + 1) c alloc K KwArgs.empty =
      some (some v,
        DIC.setActive c (setA (DIC.active c) K (l.dropLast ++ [d'])), a') := by
  have h := dic_resolve_paramless fuel c alloc K l d f hl hlast himpl haw
    (by rw [hdr]; exact hns) hdec
  rw [hdr] at h
  exact h

/-- C4 counterexample: a `cached=True` binding whose producer allocates a
fresh falsy instance per call — the memo check `self.cached and
self.instance` fails on the falsy memo, so two consecutive `resolve(K)`
calls invoke the producer twice and return distinct objects, against the
claim's unconditional "identical object". -/
theorem c4_caching_counterexample :
    DIC.resolveTwice 1 exCFalsy 0 (Key.cls 0) =
      some (some (Value.obj 0 (ClassDesc.orig 0) false),
        some (Value.obj 1 (ClassDesc.orig 0) false)) ∧
    exDepFalsy.cached = true ∧
    some (Value.obj 0 (ClassDesc.orig 0) false) ≠
      some (Value.obj 1 (ClassDesc.orig 0) false) :=
  ⟨rfl, rfl, by decide⟩

/-- C4 (amended): caching idempotence holds provided the produced instance
is truthy.  For a fresh `cached=True` binding over a producer whose result
is truthy, two consecutive `resolve(K)` calls return the same value and the
allocation counter advances only once across both calls (the producer is
invoked exactly once); for a `cached=False` binding over a producer that
allocates a fresh object per call, the two calls return objects with
distinct identities. -/
theorem c4_caching_amended :
    (∀ (fuel : Nat) (c : DIC.Container) (alloc : Nat) (K : Key)
      (l : List (Dependency Key)) (d : Dependency Key)
      (f : Nat → List Value → KwArgs → Value),
      lookupA (DIC.active c) K = some l → l.getLast? = some d →
      d.target.impl = .callable [] f → d.autowire = true →
      d.cached = true → d.inst = Value.vnone →
      (f alloc [] KwArgs.empty).truthy = true →
      DIC.resolveDecorators c K = [] →
      ∃ c2 : DIC.Container,
        DIC.resolve (fuel + 1) c alloc K KwArgs.empty =
          some (some (f alloc [] KwArgs.empty), c2, alloc + 1) ∧
        DIC.resolve (fuel + 1) c2 (alloc + 1) K KwArgs.empty =
          some (some (f alloc [] KwArgs.empty), c2, alloc + 1)) ∧
    (∀ (fuel : Nat) (c : DIC.Container) (alloc : Nat) (K : Key)
      (l : List (Dependency Key)) (d : Dependency Key) (cl : ClassDesc)
      (tr : Bool),
      lookupA (DIC.active c) K = some l → l.getLast? = some d →
      d.target.impl = .callable [] (fun a _ _ => Value.obj a cl tr) →
      d.autowire = true → d.cached = false →
      DIC.resolveDecorators c K = [] →
      ∃ c2 c3 : DIC.Container,
        DIC.resolve (fuel + 1) c alloc K KwArgs.empty =
          some (some (Value.obj alloc cl tr), c2, alloc + 1) ∧
        DIC.resolve (fuel + 1) c2 (alloc + 1) K KwArgs.empty =
          some (some (Value.obj (alloc + 1) cl tr), c3, alloc + 2) ∧
        Value.obj alloc cl tr ≠ Value.obj (alloc + 1) cl tr) := by
  constructor
  · intro fuel c alloc K l d f hl hlast himpl haw hc hi htr hdec
    have hvns : f alloc [] KwArgs.empty ≠ Value.sentinel := by
      intro he
      rw [he] at htr
      simp [Value.truthy] at htr
    have hdr : d.resolve alloc [] KwArgs.empty =
        (f alloc [] KwArgs.empty,
          { d with inst := f alloc [] KwArgs.empty }, alloc + 1) := by
      simp [Dependency.resolve, hi, Value.truthy, himpl]
    have hfirst := dic_resolve_paramless_eq fuel c alloc K l d f
      (f alloc [] KwArgs.empty) { d with inst := f alloc [] KwArgs.empty }
      (alloc + 1) hl hlast himpl haw hdr hvns hdec
    refine ⟨_, hfirst, ?_⟩
    have hl2 : lookupA
        (DIC.active (DIC.setActive c (setA (DIC.active c) K
          (l.dropLast ++ [{ d with inst := f alloc [] KwArgs.empty }])))) K =
        some (l.dropLast ++ [{ d with inst := f alloc [] KwArgs.empty }]) := by
      rw [DIC.active_setActive, lookupA_setA_self]
    have hdr2 : Dependency.resolve
        { d with inst := f alloc [] KwArgs.empty } (alloc + 1) []
          KwArgs.empty =
        (f alloc [] KwArgs.empty,
          { d with inst := f alloc [] KwArgs.empty }, alloc + 1) := by
      simp [Dependency.resolve, hc, htr]
    have hdec2 : DIC.resolveDecorators
        (DIC.setActive c (setA (DIC.active c) K
          (l.dropLast ++ [{ d with inst := f alloc [] KwArgs.empty }]))) K =
        [] := by
      rw [DIC.resolveDecorators_setActive]
      exact hdec
    have hsecond := dic_resolve_paramless_eq fuel
      (DIC.setActive c (setA (DIC.active c) K
        (l.dropLast ++ [{ d with inst := f alloc [] KwArgs.empty }])))
      (alloc + 1) K
      (l.dropLast ++ [{ d with inst := f alloc [] KwArgs.empty }])
      { d with inst := f alloc [] KwArgs.empty } f
      (f alloc [] KwArgs.empty) { d with inst := f alloc [] KwArgs.empty }
      (alloc + 1) hl2 (lastOfConcat _ _) himpl haw hdr2 hvns hdec2
    rw [DIC.active_setActive, dropLastConcat, setA_setA,
      DIC.setActive_setActive] at hsecond
    exact hsecond
  · intro fuel c alloc K l d cl tr hl hlast himpl haw hc hdec
    have hvns : Value.obj alloc cl tr ≠ Value.sentinel := by
      intro he
      exact Value.noConfusion he
    have hdr : d.resolve alloc [] KwArgs.empty =
        (Value.obj alloc cl tr,
          { d with inst := Value.obj alloc cl tr }, alloc + 1) := by
      simp [Dependency.resolve, hc, himpl]
    have hfirst := dic_resolve_paramless_eq fuel c alloc K l d _
      (Value.obj alloc cl tr) { d with inst := Value.obj alloc cl tr }
      (alloc + 1) hl hlast himpl haw hdr hvns hdec
    have hl2 : lookupA
        (DIC.active (DIC.setActive c (setA (DIC.active c) K
          (l.dropLast ++ [{ d with inst := Value.obj alloc cl tr }])))) K =
        some (l.dropLast ++ [{ d with inst := Value.obj alloc cl tr }]) := by
      rw [DIC.active_setActive, lookupA_setA_self]
    have hdr2 : Dependency.resolve
        { d with inst := Value.obj alloc cl tr } (alloc + 1) []
          KwArgs.empty =
        (Value.obj (alloc + 1) cl tr,
          { d with inst := Value.obj (alloc + 1) cl tr }, alloc + 2) := by
      simp [Dependency.resolve, hc, himpl]
    have hvns2 : Value.obj (alloc + 1) cl tr ≠ Value.sentinel := by
      intro he
      exact Value.noConfusion he
    have hdec2 : DIC.resolveDecorators
        (DIC.setActive c (setA (DIC.active c) K
          (l.dropLast ++ [{ d with inst := Value.obj alloc cl tr }]))) K =
        [] := by
      rw [DIC.resolveDecorators_setActive]
      exact hdec
    have hsecond := dic_resolve_paramless_eq fuel
      (DIC.setActive c (setA (DIC.active c) K
        (l.dropLast ++ [{ d with inst := Value.obj alloc cl tr }])))
      (alloc + 1) K
      (l.dropLast ++ [{ d with inst := Value.obj alloc cl tr }])
      { d with inst := Value.obj alloc cl tr } _
      (Value.obj (alloc + 1) cl tr)
      { d with inst := Value.obj (alloc + 1) cl tr }
      (alloc + 2) hl2 (lastOfConcat _ _) himpl haw hdr2 hvns2 hdec2
    refine ⟨_, _, hfirst, hsecond, ?_⟩
    intro he
    injection he with h1 h2
    omega

/-- C4 witness: both parts of the amended caching theorem at concrete
containers. -/
theorem c4_caching_witness :
    (∃ c2, DIC.resolve 1 exCCachedT 0 (Key.cls 0) KwArgs.empty =
        some (some (exFreshF 0 [] KwArgs.empty), c2, 1) ∧
      DIC.resolve 1 c2 1 (Key.cls 0) KwArgs.empty =
        some (some (exFreshF 0 [] KwArgs.empty), c2, 1)) ∧
    (∃ c2 c3, DIC.resolve 1 exCFresh 0 (Key.cls 0) KwArgs.empty =
        some (some (Value.obj 0 (ClassDesc.orig 0) true), c2, 1) ∧
      DIC.resolve 1 c2 1 (Key.cls 0) KwArgs.empty =
        some (some (Value.obj 1 (ClassDesc.orig 0) true), c3, 2) ∧
      Value.obj 0 (ClassDesc.orig 0) true ≠
        Value.obj 1 (ClassDesc.orig 0) true) :=
  ⟨c4_caching_amended.1 0 exCCachedT 0 (Key.cls 0) [exDepCachedT]
      exDepCachedT exFreshF rfl rfl rfl rfl rfl rfl (by decide) rfl,
   c4_caching_amended.2 0 exCFresh 0 (Key.cls 0) [exDepFresh] exDepFresh
      (ClassDesc.orig 0) true rfl rfl rfl rfl rfl rfl⟩

theorem lastMem {α : Type} (l : List α) (d : α) (h : l.getLast? = some d) :
    d ∈ l := by
  induction l with
  | nil => simp at h
  | cons a m ih =>
      cases m with
      | nil =>
          simp [List.getLast?] at h
          simp [h]
      | cons b m2 =>
          rw [lastOfCons a (b :: m2) (by simp)] at h
          exact List.mem_cons_of_mem _ (ih h)

theorem isEmptyFalse_of_last {α : Type} (l : List α) (x : α)
    (h : l.getLast? = some x) : l.isEmpty = false := by
  cases l with
  | nil => simp at h
  | cons a m => rfl

theorem anyTid_of_mem (l : List (Dependency Key)) (d : Dependency Key)
    (tid : Nat) (hm : d ∈ l) (ht : d.target.tid = tid) :
    l.any (fun x => x.target.tid = tid) = true := by
  refine List.any_eq_true.mpr ⟨d, hm, ?_⟩
  simp [ht]

theorem regDepList_last (t : Table) (K : Key) (L1 : List (Dependency Key))
    (d1 d2 : Dependency Key) (h : ¬ d1.target.tid = d2.target.tid) :
    (DIC.regDepList (setA t K (L1 ++ [d1])) K d2).getLast? = some d1 := by
  unfold DIC.regDepList
  rw [lookupA_setA_self]
  simp only [Option.getD_some]
  by_cases hany :
      (L1 ++ [d1]).any (fun x => x.target.tid = d2.target.tid) = true
  · rw [if_pos hany]
    exact removeFirstTid_last _ _ _ h
  · rw [if_neg hany]
    exact lastOfConcat _ _

theorem registerDependency_eq (c : DIC.Container) (K : Key)
    (d : Dependency Key) (hK : K.isClassVar = false) :
    DIC.registerDependency c K d =
      some (DIC.setActive c (setA (DIC.active c) K
        (DIC.regDepList (DIC.active c) K d ++ [d]))) := by
  simp [DIC.registerDependency, hK, DIC.regDepTable]

theorem remove_target_eq (c : DIC.Container) (K : Key) (tid : Nat)
    (l : List (Dependency Key))
    (hl : lookupA (DIC.active c) K = some l)
    (hany : l.any (fun x => x.target.tid = tid) = true)
    (hne2 : (removeFirstTid tid l).isEmpty = false) :
    DIC.remove c K (some tid) =
      some (DIC.setActive c (setA (DIC.active c) K (removeFirstTid tid l))) := by
  unfold DIC.remove
  simp [hasKeyA, hl, hany, hne2]

/-- C1: LIFO resolution.  From any container state, registering `P1` then
`P2` (distinct target identities) under a non-`ClassVar` key `K` makes
`resolve(K)` select the last entry of `K`'s binding list — `P2`'s binding —
so the resolved value is `P2`'s producer output; after a subsequent
`remove(K, P1)` (which succeeds), `resolve(K)` still returns a value
produced by `P2`. -/
theorem c1_lifo_resolution (fuel : Nat) (c : DIC.Container) (K : Key)
    (alloc tid1 tid2 : Nat) (f1 f2 : Nat → List Value → KwArgs → Value)
    (hK : K.isClassVar = false) (hne : tid1 ≠ tid2)
    (hdec : DIC.resolveDecorators c K = [])
    (hs : ∀ a : Nat, f2 a [] KwArgs.empty ≠ Value.sentinel) :
    ∃ c1 c2 cr c3 cr2 : DIC.Container,
      DIC.registerDependency c K
        ⟨⟨tid1, .callable [] f1⟩, false, true, Value.vnone⟩ = some c1 ∧
      DIC.registerDependency c1 K
        ⟨⟨tid2, .callable [] f2⟩, false, true, Value.vnone⟩ = some c2 ∧
      DIC.resolve (fuel + 1) c2 alloc K KwArgs.empty =
        some (some (f2 alloc [] KwArgs.empty), cr, alloc + 1) ∧
      DIC.remove cr K (some tid1) = some c3 ∧
      DIC.resolve (fuel + 1) c3 (alloc + 1) K KwArgs.empty =
        some (some (f2 (alloc + 1) [] KwArgs.empty), cr2, alloc + 2) := by
  set d1 : Dependency Key := ⟨⟨tid1, .callable [] f1⟩, false, true, Value.vnone⟩
    with hd1def
  set d2 : Dependency Key := ⟨⟨tid2, .callable [] f2⟩, false, true, Value.vnone⟩
    with hd2def
  set d2x : Dependency Key := { d2 with inst := f2 alloc [] KwArgs.empty }
    with hd2xdef
  have htid1 : d1.target.tid = tid1 := by rw [hd1def]
  have htid2 : d2.target.tid = tid2 := by rw [hd2def]
  have htid2x : d2x.target.tid = tid2 := by rw [hd2xdef, hd2def]
  obtain ⟨c1', h1, hAct1, hDec1⟩ :
      ∃ c1', DIC.registerDependency c K d1 = some c1' ∧
        DIC.active c1' = setA (DIC.active c) K
          (DIC.regDepList (DIC.active c) K d1 ++ [d1]) ∧
        DIC.resolveDecorators c1' K = DIC.resolveDecorators c K :=
    ⟨_, registerDependency_eq c K d1 hK, DIC.active_setActive _ _,
      DIC.resolveDecorators_setActive _ _ _⟩
  obtain ⟨c2', h2, hAct2, hDec2⟩ :
      ∃ c2', DIC.registerDependency c1' K d2 = some c2' ∧
        DIC.active c2' = setA (DIC.active c1') K
          (DIC.regDepList (DIC.active c1') K d2 ++ [d2]) ∧
        DIC.resolveDecorators c2' K = DIC.resolveDecorators c1' K :=
    ⟨_, registerDependency_eq c1' K d2 hK, DIC.active_setActive _ _,
      DIC.resolveDecorators_setActive _ _ _⟩
  have hL2last : (DIC.regDepList (DIC.active c1') K d2).getLast? = some d1 := by
    rw [hAct1]
    refine regDepList_last _ _ _ _ _ ?_
    rw [htid1, htid2]
    exact hne
  have hdr1 : d2.resolve alloc [] KwArgs.empty =
      (f2 alloc [] KwArgs.empty, d2x, alloc + 1) := by
    rw [hd2xdef, hd2def]
    simp [Dependency.resolve]
  obtain ⟨cr, h3, hActr, hDecr⟩ :
      ∃ cr, DIC.resolve (fuel + 1) c2' alloc K KwArgs.empty =
          some (some (f2 alloc [] KwArgs.empty), cr, alloc + 1) ∧
        DIC.active cr = setA (DIC.active c2') K
          ((DIC.regDepList (DIC.active c1') K d2 ++ [d2]).dropLast ++ [d2x]) ∧
        DIC.resolveDecorators cr K = DIC.resolveDecorators c2' K :=
    ⟨_, dic_resolve_paramless_eq fuel c2' alloc K _ d2 f2 _ d2x _
        (by rw [hAct2]; exact lookupA_setA_self _ _ _) (lastOfConcat _ _)
        (by rw [hd2def]) (by rw [hd2def]) hdr1 (hs alloc)
        (by rw [hDec2, hDec1]; exact hdec),
      DIC.active_setActive _ _, DIC.resolveDecorators_setActive _ _ _⟩
  rw [dropLastConcat] at hActr
  obtain ⟨c3, h4, hAct3, hDec3⟩ :
      ∃ c3, DIC.remove cr K (some tid1) = some c3 ∧
        DIC.active c3 = setA (DIC.active cr) K
          (removeFirstTid tid1 (DIC.regDepList (DIC.active c1') K d2 ++ [d2x])) ∧
        DIC.resolveDecorators c3 K = DIC.resolveDecorators cr K := by
    refine ⟨_, remove_target_eq cr K tid1 _ ?_ ?_ ?_,
      DIC.active_setActive _ _, DIC.resolveDecorators_setActive _ _ _⟩
    · rw [hActr]
      exact lookupA_setA_self _ _ _
    · exact anyTid_of_mem _ d1 tid1
        (List.mem_append_left _ (lastMem _ _ hL2last)) htid1
    · exact isEmptyFalse_of_last _ d2x
        (removeFirstTid_last _ _ _ (by rw [htid2x]; exact fun h => hne h.symm))
  have hdr2 : d2x.resolve (alloc + 1) [] KwArgs.empty =
      (f2 (alloc + 1) [] KwArgs.empty,
        { d2x with inst := f2 (alloc + 1) [] KwArgs.empty }, alloc + 2) := by
    rw [hd2xdef, hd2def]
    simp [Dependency.resolve]
  obtain ⟨cr2, h5⟩ :
      ∃ cr2, DIC.resolve (fuel + 1) c3 (alloc + 1) K KwArgs.empty =
          some (some (f2 (alloc + 1) [] KwArgs.empty), cr2, alloc + 2) :=
    ⟨_, dic_resolve_paramless_eq fuel c3 (alloc + 1) K _ d2x f2 _ _ _
        (by rw [hAct3]; exact lookupA_setA_self _ _ _)
        (removeFirstTid_last _ _ _ (by rw [htid2x]; exact fun h => hne h.symm))
        (by rw [hd2xdef, hd2def]) (by rw [hd2xdef, hd2def]) hdr2
        (hs (alloc + 1))
        (by rw [hDec3, hDecr, hDec2, hDec1]; exact hdec)⟩
  exact ⟨c1', c2', cr, c3, cr2, h1, h2, h3, h4, h5⟩

/-- C1 witness: the LIFO theorem at the empty container with the two
concrete producers. -/
theorem c1_lifo_witness :
    ∃ c1 c2 cr c3 cr2 : DIC.Container,
      DIC.registerDependency exCEmpty (Key.cls 0)
        ⟨⟨1, .callable [] exF1⟩, false, true, Value.vnone⟩ = some c1 ∧
      DIC.registerDependency c1 (Key.cls 0)
        ⟨⟨2, .callable [] exF2⟩, false, true, Value.vnone⟩ = some c2 ∧
      DIC.resolve 1 c2 0 (Key.cls 0) KwArgs.empty =
        some (some (exF2 0 [] KwArgs.empty), cr, 1) ∧
      DIC.remove cr (Key.cls 0) (some 1) = some c3 ∧
      DIC.resolve 1 c3 1 (Key.cls 0) KwArgs.empty =
        some (some (exF2 1 [] KwArgs.empty), cr2, 2) :=
  c1_lifo_resolution 0 exCEmpty (Key.cls 0) 0 1 2 exF1 exF2 rfl
    (by decide) rfl (fun a h => Value.noConfusion h)

/-- C10: a registered key whose selected producer returns `None` resolves to
`None` without raising — the `NOT_RESOLVED` sentinel marks only a failed
lookup, and it is a different value from `None` — and the behavior pipeline
is skipped on a `None` result (`_apply_decorators` tests
`resolved is not None` before consulting any transformers, so this holds
even when transformers are registered for the key). -/
theorem c10_none_result (fuel : Nat) (c : DIC.Container) (alloc : Nat)
    (K : Key) (l : List (Dependency Key)) (d : Dependency Key)
    (f : Nat → List Value → KwArgs → Value) (d' : Dependency Key) (a' : Nat)
    (hl : lookupA (DIC.active c) K = some l) (hlast : l.getLast? = some d)
    (himpl : d.target.impl = .callable [] f) (haw : d.autowire = true)
    (hdr : d.resolve alloc [] KwArgs.empty = (Value.vnone, d', a')) :
    DIC.resolve (fuel + 1) c alloc K KwArgs.empty =
      some (some Value.vnone,
        DIC.setActive c (setA (DIC.active c) K (l.dropLast ++ [d'])), a') ∧
    DIC.applyDecorators c Value.vnone K = Value.vnone ∧
    (Value.vnone : Value) ≠ Value.sentinel := by
  refine ⟨?_, rfl, by decide⟩
  have hres := resolver_step_autowire Value.sentinel fuel (DIC.active c)
    alloc K KwArgs.empty l d f hl hlast himpl haw
  rw [kwUpdate_empty_empty, hdr] at hres
  simp only [DIC.resolve, hres]
  rw [if_neg (by decide : ¬ (Value.vnone = Value.sentinel))]
  rfl

/-- C10 witness: the theorem at a container that binds the key to a
`None`-returning producer and also registers a transformer for the very same
key. -/
theorem c10_none_witness :
    DIC.resolve 1 exCNone 0 (Key.cls 0) KwArgs.empty =
      some (some Value.vnone,
        DIC.setActive exCNone (setA (DIC.active exCNone) (Key.cls 0)
          (([exDepNone]).dropLast ++ [exDepNone])), 1) ∧
    DIC.applyDecorators exCNone Value.vnone (Key.cls 0) = Value.vnone ∧
    (Value.vnone : Value) ≠ Value.sentinel :=
  c10_none_result 0 exCNone 0 (Key.cls 0) [exDepNone] exDepNone exNoneF
    exDepNone 1 rfl rfl rfl rfl rfl

theorem resolve_target_eq {κ : Type} (d : Dependency κ) (alloc : Nat)
    (args : List Value) (kw : KwArgs) :
    ((d.resolve alloc args kw).2.1).target = d.target := by
  unfold Dependency.resolve
  by_cases hb : (d.cached && d.inst.truthy) = true
  · simp [hb]
  · rw [Bool.not_eq_true] at hb
    cases himpl : d.target.impl <;> simp [hb, himpl]

theorem dic_resolve_paramless_dec (fuel : Nat) (c : DIC.Container)
    (alloc : Nat) (K : Key) (l : List (Dependency Key)) (d : Dependency Key)
    (f : Nat → List Value → KwArgs → Value) (i : Nat) (cl : ClassDesc)
    (tr : Bool) (d' : Dependency Key) (a' : Nat) (ds : List Nat)
    (hl : lookupA (DIC.active c) K = some l) (hlast : l.getLast? = some d)
    (himpl : d.target.impl = .callable [] f) (haw : d.autowire = true)
    (hdr : d.resolve alloc [] KwArgs.empty = (Value.obj i cl tr, d', a'))
    (hds : DIC.resolveDecorators c K = ds) (hne : ds.isEmpty = false) :
    DIC.resolve (fuel + 1) c alloc K KwArgs.empty =
      some (some (Value.obj i (wrapAll ds cl) tr),
        DIC.setActive c (setA (DIC.active c) K (l.dropLast ++ [d'])), a') := by
  have hres := resolver_step_autowire Value.sentinel fuel (DIC.active c)
    alloc K KwArgs.empty l d f hl hlast himpl haw
  rw [kwUpdate_empty_empty, hdr] at hres
  simp only [DIC.resolve, hres]
  rw [if_neg (fun h => Value.noConfusion h)]
  have happ : DIC.applyDecorators
      (DIC.setActive c (setA (DIC.active c) K (l.dropLast ++ [d'])))
      (Value.obj i cl tr) K = Value.obj i (wrapAll ds cl) tr := by
    simp only [DIC.applyDecorators, DIC.resolveDecorators_setActive, hds, hne,
      Bool.false_eq_true, if_false]
  rw [happ]

theorem resolveAll_singleton (fuel : Nat) (c : DIC.Container) (alloc : Nat)
    (K : Key) (d : Dependency Key) (f : Nat → List Value → KwArgs → Value)
    (v : Value) (d' : Dependency Key) (a' : Nat)
    (hl : lookupA (DIC.active c) K = some [d])
    (himpl : d.target.impl = .callable [] f) (haw : d.autowire = true)
    (hdr : d.resolve alloc [] KwArgs.empty = (v, d', a')) :
    DIC.resolveAll fuel c alloc K KwArgs.empty =
      some ([v], DIC.updateAt c K 0 d', a') := by
  simp [DIC.resolveAll, DIC.resolveAllGo, DIC.paramFoldAll, hl, haw, himpl,
    kwUpdate_empty_empty, hdr]

/-- C7 counterexample: the transformer table is consulted with the request
key, not with the resolved value's concrete type.  Key `cls 0` produces
instances of class `orig 1`, and a transformer is registered for `cls 1`
(the produced type); resolving `cls 0` returns the instance with its class
unwrapped, although the claim requires the produced type's transformer to
wrap it. -/
theorem c7_decorator_counterexample :
    (DIC.resolve 1 exC7mismatch 0 (Key.cls 0) KwArgs.empty).map
      (fun r => r.1) = some (some (Value.obj 0 (ClassDesc.orig 1) true)) ∧
    DIC.resolveDecorators exC7mismatch (Key.cls 1) = [7] ∧
    (ClassDesc.orig 1 : ClassDesc) ≠ wrapAll [7] (ClassDesc.orig 1) :=
  ⟨rfl, rfl, by decide⟩

/-- C7 (amended): on every successful `resolve`, the transformers registered
for the request key (not the resolved value's type) are applied in reverse
registration order to a structurally copied class descriptor, so the
first-registered transformer is outermost (`wrapAll [n1, n2]` is
`n1 (n2 (copyOf original))`); the binding written back keeps its original
target (the stored producer is never mutated); and `resolve_all` applies no
transformer to its yielded values. -/
theorem c7_decorator_amended :
    (∀ (fuel : Nat) (c : DIC.Container) (alloc : Nat) (K : Key)
      (l : List (Dependency Key)) (d : Dependency Key)
      (f : Nat → List Value → KwArgs → Value) (i : Nat) (cl : ClassDesc)
      (tr : Bool) (d' : Dependency Key) (a' : Nat) (ds : List Nat),
      lookupA (DIC.active c) K = some l → l.getLast? = some d →
      d.target.impl = .callable [] f → d.autowire = true →
      d.resolve alloc [] KwArgs.empty = (Value.obj i cl tr, d', a') →
      DIC.resolveDecorators c K = ds → ds.isEmpty = false →
      DIC.resolve (fuel + 1) c alloc K KwArgs.empty =
        some (some (Value.obj i (wrapAll ds cl) tr),
          DIC.setActive c (setA (DIC.active c) K (l.dropLast ++ [d'])), a') ∧
      d'.target = d.target) ∧
    (∀ (n1 n2 : Nat) (cl : ClassDesc),
      wrapAll [n1, n2] cl =
        ClassDesc.wrapped n1 (ClassDesc.wrapped n2 (ClassDesc.copyOf cl))) ∧
    (∀ (fuel : Nat) (c : DIC.Container) (alloc : Nat) (K : Key)
      (d : Dependency Key) (f : Nat → List Value → KwArgs → Value)
      (i : Nat) (cl : ClassDesc) (tr : Bool) (d' : Dependency Key) (a' : Nat),
      lookupA (DIC.active c) K = some [d] →
      d.target.impl = .callable [] f → d.autowire = true →
      d.resolve alloc [] KwArgs.empty = (Value.obj i cl tr, d', a') →
      DIC.resolveAll fuel c alloc K KwArgs.empty =
        some ([Value.obj i cl tr], DIC.updateAt c K 0 d', a')) := by
  refine ⟨?_, fun n1 n2 cl => rfl, ?_⟩
  · intro fuel c alloc K l d f i cl tr d' a' ds hl hlast himpl haw hdr hds hne
    refine ⟨dic_resolve_paramless_dec fuel c alloc K l d f i cl tr d' a' ds
      hl hlast himpl haw hdr hds hne, ?_⟩
    have := resolve_target_eq d alloc [] KwArgs.empty
    rw [hdr] at this
    exact this
  · intro fuel c alloc K d f i cl tr d' a' hl himpl haw hdr
    exact resolveAll_singleton fuel c alloc K d f _ d' a' hl himpl haw hdr

/-- C7 witness: the amended theorem at a container with two transformers
registered, in order, for the request key; the resolved instance's class is
`wrapped 1 (wrapped 2 (copyOf (orig 1)))`, and `resolve_all` yields the
instance with class `orig 1` untouched. -/
theorem c7_decorator_witness :
    (DIC.resolve 1 exC7order 0 (Key.cls 0) KwArgs.empty =
      some (some (Value.obj 0 (wrapAll [1, 2] (ClassDesc.orig 1)) true),
        DIC.setActive exC7order (setA (DIC.active exC7order) (Key.cls 0)
          (([exDepProd1]).dropLast ++
            [{ exDepProd1 with inst := Value.obj 0 (ClassDesc.orig 1) true }])),
        1) ∧
      ({ exDepProd1 with
          inst := Value.obj 0 (ClassDesc.orig 1) true } : Dependency Key).target =
        exDepProd1.target) ∧
    wrapAll [1, 2] (ClassDesc.orig 1) =
      ClassDesc.wrapped 1 (ClassDesc.wrapped 2 (ClassDesc.copyOf
        (ClassDesc.orig 1))) ∧
    DIC.resolveAll 1 exC7order 0 (Key.cls 0) KwArgs.empty =
      some ([Value.obj 0 (ClassDesc.orig 1) true],
        DIC.updateAt exC7order (Key.cls 0) 0
          { exDepProd1 with inst := Value.obj 0 (ClassDesc.orig 1) true }, 1) :=
  ⟨c7_decorator_amended.1 0 exC7order 0 (Key.cls 0) [exDepProd1] exDepProd1
      exProd1F 0 (ClassDesc.orig 1) true
      { exDepProd1 with inst := Value.obj 0 (ClassDesc.orig 1) true } 1 [1, 2]
      rfl rfl rfl rfl rfl rfl rfl,
   c7_decorator_amended.2.1 1 2 (ClassDesc.orig 1),
   c7_decorator_amended.2.2 1 exC7order 0 (Key.cls 0) exDepProd1 exProd1F 0
      (ClassDesc.orig 1) true
      { exDepProd1 with inst := Value.obj 0 (ClassDesc.orig 1) true } 1
      rfl rfl rfl rfl⟩

theorem setActive_cons (c : DIC.Container) (t : Table) (hw : Table)
    (s : List Table) (h : c.stack = hw :: s) :
    DIC.setActive c t = { c with stack := t :: s } := by
  obtain ⟨b, st, db, dq⟩ := c
  simp only at h
  subst h
  rfl

theorem setActiveDecs_cons (c : DIC.Container) (t : DecTable) (hu : DecTable)
    (s : List DecTable) (h : c.decStack = hu :: s) :
    DIC.setActiveDecs c t = { c with decStack := t :: s } := by
  obtain ⟨b, st, db, dq⟩ := c
  simp only at h
  subst h
  rfl

theorem registerDependency_shape (c : DIC.Container) (K : Key)
    (d : Dependency Key) (c2 : DIC.Container)
    (h : DIC.registerDependency c K d = some c2) :
    ∃ t, c2 = DIC.setActive c t := by
  unfold DIC.registerDependency at h
  split at h
  · exact absurd h (by simp)
  · exact ⟨_, (Option.some.inj h).symm⟩

theorem remove_shape (c : DIC.Container) (K : Key) (tg : Option Nat)
    (c2 : DIC.Container) (h : DIC.remove c K tg = some c2) :
    ∃ t, c2 = DIC.setActive c t := by
  unfold DIC.remove at h
  split at h
  · exact absurd h (by simp)
  · cases tg with
    | none => exact ⟨_, (Option.some.inj h).symm⟩
    | some tid =>
        simp only at h
        split at h
        · split at h
          · exact ⟨_, (Option.some.inj h).symm⟩
          · exact ⟨_, (Option.some.inj h).symm⟩
        · exact absurd h (by simp)

theorem runF_append (c : DIC.Container) (as bs : List FOp) :
    runF c (as ++ bs) =
      match runF c as with
      | none => none
      | some c1 => runF c1 bs := by
  induction as generalizing c with
  | nil => rfl
  | cons a as ih =>
      rw [List.cons_append]
      simp only [runF]
      cases runOp1 c a with
      | none => rfl
      | some c1 => exact ih c1

theorem runF_frames (ops : List FOp) :
    ∀ (dpt e : Nat) (c c2 : DIC.Container) (w rest : List Table)
      (u restD : List DecTable),
      net dpt ops = some e → runF c ops = some c2 →
      c.stack = w ++ rest → w.length = dpt + 1 →
      c.decStack = u ++ restD → u.length = dpt + 1 →
      ∃ w2 u2, c2.stack = w2 ++ rest ∧ w2.length = e + 1 ∧
        c2.decStack = u2 ++ restD ∧ u2.length = e + 1 ∧
        c2.base = c.base ∧ c2.decBase = c.decBase := by
  induction ops with
  | nil =>
      intro dpt e c c2 w rest u restD hnet hrun hst hwl hds hul
      simp only [net, Option.some.injEq] at hnet
      simp only [runF, Option.some.injEq] at hrun
      subst hrun
      subst hnet
      exact ⟨w, u, hst, hwl, hds, hul, rfl, rfl⟩
  | cons op ops ih =>
      intro dpt e c c2 w rest u restD hnet hrun hst hwl hds hul
      obtain ⟨hw, wt, rfl⟩ : ∃ hw wt, w = hw :: wt := by
        cases w with
        | nil => simp at hwl
        | cons a b => exact ⟨a, b, rfl⟩
      obtain ⟨hu, ut, rfl⟩ : ∃ hu ut, u = hu :: ut := by
        cases u with
        | nil => simp at hul
        | cons a b => exact ⟨a, b, rfl⟩
      simp only [runF] at hrun
      cases op with
      | regD n d =>
          simp only [net] at hnet
          cases h1 : runOp1 c (FOp.regD n d) with
          | none => rw [h1] at hrun; exact absurd hrun (by simp)
          | some c1 =>
              rw [h1] at hrun
              obtain ⟨T, rfl⟩ := registerDependency_shape c n d c1 h1
              rw [setActive_cons c T hw (wt ++ rest)
                (by rw [hst]; rfl)] at hrun
              obtain ⟨w2, u2, h2⟩ := ih dpt e _ c2 (T :: wt) rest (hu :: ut)
                restD hnet hrun rfl (by simpa using hwl) (by simpa using hds)
                hul
              exact ⟨w2, u2, h2.1, h2.2.1, h2.2.2.1, h2.2.2.2.1,
                h2.2.2.2.2.1, h2.2.2.2.2.2⟩
      | rem n tg =>
          simp only [net] at hnet
          cases h1 : runOp1 c (FOp.rem n tg) with
          | none => rw [h1] at hrun; exact absurd hrun (by simp)
          | some c1 =>
              rw [h1] at hrun
              obtain ⟨T, rfl⟩ := remove_shape c n tg c1 h1
              rw [setActive_cons c T hw (wt ++ rest)
                (by rw [hst]; rfl)] at hrun
              obtain ⟨w2, u2, h2⟩ := ih dpt e _ c2 (T :: wt) rest (hu :: ut)
                restD hnet hrun rfl (by simpa using hwl) (by simpa using hds)
                hul
              exact ⟨w2, u2, h2.1, h2.2.1, h2.2.2.1, h2.2.2.2.1,
                h2.2.2.2.2.1, h2.2.2.2.2.2⟩
      | regDec n i =>
          simp only [net] at hnet
          cases h1 : runOp1 c (FOp.regDec n i) with
          | none => rw [h1] at hrun; exact absurd hrun (by simp)
          | some c1 =>
              rw [h1] at hrun
              have hshape : ∃ T, c1 = DIC.setActiveDecs c T :=
                ⟨_, (Option.some.inj h1).symm⟩
              obtain ⟨T, rfl⟩ := hshape
              rw [setActiveDecs_cons c T hu (ut ++ restD)
                (by rw [hds]; rfl)] at hrun
              obtain ⟨w2, u2, h2⟩ := ih dpt e _ c2 (hw :: wt) rest (T :: ut)
                restD hnet hrun (by simpa using hst) hwl rfl
                (by simpa using hul)
              exact ⟨w2, u2, h2.1, h2.2.1, h2.2.2.1, h2.2.2.2.1,
                h2.2.2.2.2.1, h2.2.2.2.2.2⟩
      | enterOp =>
          simp only [net] at hnet
          rw [show runOp1 c FOp.enterOp = some (DIC.enterScope c) from rfl]
            at hrun
          obtain ⟨w2, u2, h2⟩ := ih (dpt + 1) e (DIC.enterScope c) c2
            (DIC.active c :: hw :: wt) rest
            (DIC.activeDecs c :: hu :: ut) restD hnet hrun
            (by simp [DIC.enterScope, hst]) (by simpa using hwl)
            (by simp [DIC.enterScope, hds]) (by simpa using hul)
          exact ⟨w2, u2, h2.1, h2.2.1, h2.2.2.1, h2.2.2.2.1,
            h2.2.2.2.2.1, h2.2.2.2.2.2⟩
      | exitOp =>
          cases dpt with
          | zero => simp [net] at hnet
          | succ dp =>
              simp only [net] at hnet
              rw [show runOp1 c FOp.exitOp = some (DIC.exitScope c) from rfl]
                at hrun
              obtain ⟨hw2, wt2, hwt⟩ : ∃ hw2 wt2, wt = hw2 :: wt2 := by
                cases wt with
                | nil => simp at hwl
                | cons a b => exact ⟨a, b, rfl⟩
              obtain ⟨hu2, ut2, hut⟩ : ∃ hu2 ut2, ut = hu2 :: ut2 := by
                cases ut with
                | nil => simp at hul
                | cons a b => exact ⟨a, b, rfl⟩
              obtain ⟨w2, u2, h2⟩ := ih dp e (DIC.exitScope c) c2 wt rest ut
                restD hnet hrun (by simp [DIC.exitScope, hst])
                (by simpa using hwl) (by simp [DIC.exitScope, hds])
                (by simpa using hul)
              exact ⟨w2, u2, h2.1, h2.2.1, h2.2.2.1, h2.2.2.2.1,
                h2.2.2.2.2.1, h2.2.2.2.2.2⟩

/-- Core restoration fact: a scope block whose body is well-nested restores
the whole container state. -/
theorem scopeBlock_restore (c c2 : DIC.Container) (ops : List FOp)
    (hnet : net 0 ops = some 0)
    (hrun : runF c (FOp.enterOp :: ops ++ [FOp.exitOp]) = some c2) :
    c2 = c := by
    have hrun2 : runF (DIC.enterScope c) (ops ++ [FOp.exitOp]) = some c2 := hrun
    rw [runF_append] at hrun2
    cases h3 : runF (DIC.enterScope c) ops with
    | none => rw [h3] at hrun2; exact absurd hrun2 (by simp)
    | some c1 =>
        rw [h3] at hrun2
        have hc2 : c2 = DIC.exitScope c1 := (Option.some.inj hrun2).symm
        obtain ⟨w2, u2, hst2, hwl2, hds2, hul2, hb, hdb⟩ :=
          runF_frames ops 0 0 (DIC.enterScope c) c1 [DIC.active c] c.stack
            [DIC.activeDecs c] c.decStack hnet h3 rfl rfl rfl rfl
        obtain ⟨s2, rfl⟩ := List.length_eq_one.mp hwl2
        obtain ⟨t2, rfl⟩ := List.length_eq_one.mp hul2
        have h1 : c1.base = c.base := hb
        have h2 : c1.stack.tail = c.stack := by rw [hst2]; rfl
        have h3d : c1.decBase = c.decBase := hdb
        have h4 : c1.decStack.tail = c.decStack := by rw [hds2]; rfl
        rw [hc2]
        show (⟨c1.base, c1.stack.tail, c1.decBase, c1.decStack.tail⟩ :
          DIC.Container) = c
        rw [h1, h2, h3d, h4]

/-- C2: scope restoration.  Entering a scope, performing any well-nested
sequence of `register_dependency` / `remove` / `register_decorator`
operations and nested scopes (`net 0 ops = some 0` says the body never exits
the scope it started in and closes every scope it opens), and exiting,
restores the container exactly: the whole state — hence `has(K)`, key
membership, and the binding `resolve(K)` would select — equals its value
immediately before the matching enter. -/
theorem c2_scope_restoration (c c2 : DIC.Container) (ops : List FOp)
    (hnet : net 0 ops = some 0)
    (hrun : runF c (FOp.enterOp :: ops ++ [FOp.exitOp]) = some c2) :
    c2 = c ∧ (∀ K, DIC.has c2 K = DIC.has c K) ∧
      (∀ K, DIC.selectedBinding c2 K = DIC.selectedBinding c K) := by
  have hmain : c2 = c := scopeBlock_restore c c2 ops hnet hrun
  exact ⟨hmain, fun K => by rw [hmain], fun K => by rw [hmain]⟩

/-- C2 witness: the restoration theorem at a concrete container and a
concrete body that registers, opens a nested scope registering a decorator,
and removes. -/
theorem c2_scope_witness :
    exCFresh = exCFresh ∧
      (∀ K, DIC.has exCFresh K = DIC.has exCFresh K) ∧
      (∀ K, DIC.selectedBinding exCFresh K =
        DIC.selectedBinding exCFresh K) :=
  c2_scope_restoration exCFresh exCFresh exOps (by decide) rfl

/-- C8 counterexample: `copy()` builds `dict(self.dependencies)`, whose
values are the very same list objects; registering `P2` for the existing key
on the copy appends to the shared list, so the binding list the original
container `R` reads changes from `[P1]` to `[P1, P2]` — against the claim
that each key's binding list is an independent list. -/
theorem c8_copy_counterexample :
    Heap.registerDependency exH0 (Heap.copyC exR) (Key.cls 0) exHd2 =
      some (⟨[(0, [exHd1, exHd2])], 1⟩, ⟨[(Key.cls 0, 0)]⟩) ∧
    Heap.bindingTids exH0 exR (Key.cls 0) = some [1] ∧
    Heap.bindingTids ⟨[(0, [exHd1, exHd2])], 1⟩ exR (Key.cls 0) =
      some [1, 2] ∧
    (some [1] : Option (List Nat)) ≠ some [1, 2] :=
  ⟨rfl, rfl, rfl, by decide⟩

/-- C8 (amended): `copy()` seeds the new container with a shallow dict copy
whose values are the shared list objects.  Registering a further producer
for a key `K` present in the original `R` on the copy appends to the shared
list, so the binding list `R`'s `resolve(K)` uses gains the new producer,
which becomes the selected (last) binding; only a registration under a key
absent from `R` leaves `R` unaffected, because the dict itself (not its
lists) was copied. -/
theorem c8_copy_amended :
    (∀ (h : Heap.State) (c : Heap.Cont) (K : Key) (lid : Nat)
      (l : List (Dependency Key)) (d : Dependency Key),
      K.isClassVar = false →
      lookupA c.table K = some lid → lookupA h.lists lid = some l →
      l.any (fun x => x.target.tid = d.target.tid) = false →
      ∃ h2, Heap.registerDependency h (Heap.copyC c) K d =
          some (h2, Heap.copyC c) ∧
        Heap.bindingList h2 c K = some (l ++ [d]) ∧
        (Heap.bindingList h2 c K).bind (fun m => m.getLast?) = some d) ∧
    (∀ (h : Heap.State) (c : Heap.Cont) (K2 : Key) (d : Dependency Key),
      K2.isClassVar = false → lookupA c.table K2 = none →
      ∃ h2 c2, Heap.registerDependency h (Heap.copyC c) K2 d =
          some (h2, c2) ∧ Heap.bindingList h2 c K2 = none) := by
  constructor
  · intro h c K lid l d hK hcK hll hany
    refine ⟨{ h with lists := setA h.lists lid (l ++ [d]) }, ?_, ?_, ?_⟩
    · simp [Heap.registerDependency, Heap.copyC, hK, hcK, hll, hany]
    · simp [Heap.bindingList, hcK, lookupA_setA_self]
    · simp [Heap.bindingList, hcK, lookupA_setA_self, lastOfConcat]
  · intro h c K2 d hK hcK
    refine ⟨⟨setA h.lists h.nextId [d], h.nextId + 1⟩,
      ⟨setA (Heap.copyC c).table K2 h.nextId⟩, ?_, ?_⟩
    · simp [Heap.registerDependency, Heap.copyC, hK, hcK]
    · simp [Heap.bindingList, hcK]

/-- C8 witness: both parts of the amended theorem on the concrete shared
heap. -/
theorem c8_copy_witness :
    (∃ h2, Heap.registerDependency exH0 (Heap.copyC exR) (Key.cls 0) exHd2 =
        some (h2, Heap.copyC exR) ∧
      Heap.bindingList h2 exR (Key.cls 0) = some ([exHd1] ++ [exHd2]) ∧
      (Heap.bindingList h2 exR (Key.cls 0)).bind (fun m => m.getLast?) =
        some exHd2) ∧
    (∃ h2 c2, Heap.registerDependency exH0 (Heap.copyC exR) (Key.cls 5)
        exHd2 = some (h2, c2) ∧
      Heap.bindingList h2 exR (Key.cls 5) = none) :=
  ⟨c8_copy_amended.1 exH0 exR (Key.cls 0) 0 [exHd1] exHd2 rfl rfl rfl
      (by decide),
   c8_copy_amended.2 exH0 exR (Key.cls 5) exHd2 rfl rfl⟩

theorem foldl_keep_some (g : Nat → Option (Value × DTable × Nat))
    (cs : List Nat) (r : Value × DTable × Nat) :
    cs.foldl (DC.tryCandidate g) (some r) = some r := by
  induction cs with
  | nil => rfl
  | cons c cs ih => simpa [DC.tryCandidate] using ih

theorem dc_resolve_registered (w : DC.World) (fuel : Nat) (t : DTable)
    (alloc : Nat) (name : GKey) (kwargs : KwArgs) (d : Dependency GKey)
    (f : Nat → List Value → KwArgs → Value)
    (hl : lookupA t name = some d) (himpl : d.target.impl = .callable [] f)
    (haw : d.autowire = true) :
    DC.resolveOptional w (fuel + 1) t alloc name kwargs =
      some ((d.resolve alloc [] (KwArgs.update KwArgs.empty kwargs)).1,
        setA t name
          (d.resolve alloc [] (KwArgs.update KwArgs.empty kwargs)).2.1,
        (d.resolve alloc [] (KwArgs.update KwArgs.empty kwargs)).2.2) := by
  simp only [DC.resolveOptional, hl, haw, Bool.true_eq_false, ite_false,
    himpl, DC.paramFold, List.foldl_nil]

theorem dc_generic_attempt (w : DC.World) (fuel : Nat) (t : DTable)
    (alloc : Nat) (o a : Nat) (kwargs : KwArgs) (C : Nat) (cs : List Nat)
    (r : Value × DTable × Nat)
    (habs : lookupA t (GKey.generic o a) = none)
    (hcand : DC.candidates w t (GKey.generic o a) = C :: cs)
    (hrec : DC.resolveOptional w fuel t alloc (GKey.cls C) kwargs = some r) :
    DC.resolveOptional w (fuel + 1) t alloc (GKey.generic o a) kwargs =
      some r := by
  simp only [DC.resolveOptional, habs, hcand, List.foldl_cons,
    DC.tryCandidate, hrec]
  rw [foldl_keep_some]

/-- C6: generic-key fallback.  When the parameterized key `generic o a`
was never registered, but a concrete class `C` — registered under its own
key — declares the parameterized key among its `__orig_bases__` (`C` heads
the candidate scan, which walks registered keys in table order), resolving
`generic o a` resolves the concrete class `C` instead: the result is the
value produced by `C`'s binding (with the caller kwargs forwarded), and it
is not the unresolved `None`. -/
theorem c6_generic_fallback (fuel : Nat) (w : DC.World) (t : DTable)
    (alloc : Nat) (o a C tid : Nat) (f : Nat → List Value → KwArgs → Value)
    (kwargs : KwArgs) (cs : List Nat)
    (habs : lookupA t (GKey.generic o a) = none)
    (hcand : DC.candidates w t (GKey.generic o a) = C :: cs)
    (hC : lookupA t (GKey.cls C) =
      some ⟨⟨tid, .callable [] f⟩, false, true, Value.vnone⟩)
    (hnn : f alloc [] (KwArgs.update KwArgs.empty kwargs) ≠ Value.vnone) :
    DC.resolveOptional w (fuel + 2) t alloc (GKey.generic o a) kwargs =
      some (f alloc [] (KwArgs.update KwArgs.empty kwargs),
        setA t (GKey.cls C)
          ⟨⟨tid, .callable [] f⟩, false, true,
            f alloc [] (KwArgs.update KwArgs.empty kwargs)⟩, alloc + 1) ∧
    f alloc [] (KwArgs.update KwArgs.empty kwargs) ≠ Value.vnone := by
  refine ⟨?_, hnn⟩
  have hinner := dc_resolve_registered w fuel t alloc (GKey.cls C) kwargs
    ⟨⟨tid, .callable [] f⟩, false, true, Value.vnone⟩ f hC rfl rfl
  have hdr : ((⟨⟨tid, .callable [] f⟩, false, true,
        Value.vnone⟩ : Dependency GKey).resolve alloc []
      (KwArgs.update KwArgs.empty kwargs)) =
      (f alloc [] (KwArgs.update KwArgs.empty kwargs),
        ⟨⟨tid, .callable [] f⟩, false, true,
          f alloc [] (KwArgs.update KwArgs.empty kwargs)⟩, alloc + 1) := by
    simp [Dependency.resolve]
  rw [hdr] at hinner
  exact dc_generic_attempt w (fuel + 1) t alloc o a kwargs C cs _ habs hcand
    hinner

/-- C6 witness: the fallback theorem at the `UserRepository` world — class
10 registered under its own key with `Repository[User]` (`generic 1 2`)
among its declared bases, the parameterized key itself never registered. -/
theorem c6_generic_witness :
    DC.resolveOptional exW 2 exGT 0 (GKey.generic 1 2) KwArgs.empty =
      some (exGF 0 [] (KwArgs.update KwArgs.empty KwArgs.empty),
        setA exGT (GKey.cls 10)
          ⟨⟨6, .callable [] exGF⟩, false, true,
            exGF 0 [] (KwArgs.update KwArgs.empty KwArgs.empty)⟩, 1) ∧
    exGF 0 [] (KwArgs.update KwArgs.empty KwArgs.empty) ≠ Value.vnone :=
  c6_generic_fallback 0 exW exGT 0 1 2 10 6 exGF KwArgs.empty [] rfl rfl rfl
    (by decide)

theorem setActive_base (c : DIC.Container) (t : Table) (h : c.stack ≠ []) :
    (DIC.setActive c t).base = c.base ∧
    (DIC.setActive c t).decBase = c.decBase ∧
    (DIC.setActive c t).decStack = c.decStack ∧
    (DIC.setActive c t).stack ≠ [] := by
  obtain ⟨b, st, db, dq⟩ := c
  cases st with
  | nil => exact absurd rfl h
  | cons x xs =>
      refine ⟨rfl, rfl, rfl, ?_⟩
      exact List.cons_ne_nil t xs

theorem setActiveDecs_base (c : DIC.Container) (t : DecTable)
    (h : c.decStack ≠ []) :
    (DIC.setActiveDecs c t).base = c.base ∧
    (DIC.setActiveDecs c t).decBase = c.decBase ∧
    (DIC.setActiveDecs c t).stack = c.stack ∧
    (DIC.setActiveDecs c t).decStack ≠ [] := by
  obtain ⟨b, st, db, dq⟩ := c
  cases dq with
  | nil => exact absurd rfl h
  | cons x xs =>
      refine ⟨rfl, rfl, rfl, ?_⟩
      exact List.cons_ne_nil t xs

theorem runOp1_base (c : DIC.Container) (op : FOp) (c2 : DIC.Container)
    (hsafe : SafeOp c op) (h : runOp1 c op = some c2) :
    c2.base = c.base ∧ c2.decBase = c.decBase := by
  cases op with
  | enterOp =>
      obtain rfl := Option.some.inj h
      exact ⟨rfl, rfl⟩
  | exitOp =>
      obtain rfl := Option.some.inj h
      exact ⟨rfl, rfl⟩
  | regD n d =>
      have hne : c.stack ≠ [] ∧ c.decStack ≠ [] := by
        rcases hsafe with h1 | h1 | h1
        · cases h1
        · cases h1
        · exact h1
      obtain ⟨T, rfl⟩ := registerDependency_shape c n d c2 h
      have h2 := setActive_base c T hne.1
      exact ⟨h2.1, h2.2.1⟩
  | rem n tg =>
      have hne : c.stack ≠ [] ∧ c.decStack ≠ [] := by
        rcases hsafe with h1 | h1 | h1
        · cases h1
        · cases h1
        · exact h1
      obtain ⟨T, rfl⟩ := remove_shape c n tg c2 h
      have h2 := setActive_base c T hne.1
      exact ⟨h2.1, h2.2.1⟩
  | regDec n i =>
      have hne : c.stack ≠ [] ∧ c.decStack ≠ [] := by
        rcases hsafe with h1 | h1 | h1
        · cases h1
        · cases h1
        · exact h1
      have hshape : ∃ T, c2 = DIC.setActiveDecs c T :=
        ⟨_, (Option.some.inj h).symm⟩
      obtain ⟨T, rfl⟩ := hshape
      have h2 := setActiveDecs_base c T hne.2
      exact ⟨h2.1, h2.2.1⟩

theorem runOp1_write_stacks (c : DIC.Container) (op : FOp)
    (c2 : DIC.Container) (hw : op.isWrite = true) (hs : c.stack ≠ [])
    (hd : c.decStack ≠ []) (h : runOp1 c op = some c2) :
    c2.stack ≠ [] ∧ c2.decStack ≠ [] := by
  cases op with
  | enterOp => simp [FOp.isWrite] at hw
  | exitOp => simp [FOp.isWrite] at hw
  | regD n d =>
      obtain ⟨T, rfl⟩ := registerDependency_shape c n d c2 h
      have h2 := setActive_base c T hs
      refine ⟨h2.2.2.2, ?_⟩
      rw [h2.2.2.1]
      exact hd
  | rem n tg =>
      obtain ⟨T, rfl⟩ := remove_shape c n tg c2 h
      have h2 := setActive_base c T hs
      refine ⟨h2.2.2.2, ?_⟩
      rw [h2.2.2.1]
      exact hd
  | regDec n i =>
      have hshape : ∃ T, c2 = DIC.setActiveDecs c T :=
        ⟨_, (Option.some.inj h).symm⟩
      obtain ⟨T, rfl⟩ := hshape
      have h2 := setActiveDecs_base c T hd
      refine ⟨?_, h2.2.2.2⟩
      rw [h2.2.2.1]
      exact hs

theorem mstep_view_self (s : MState) (f : Nat) (op : FOp) (s2 : MState)
    (h : mstep s f op = some s2) :
    runOp1 (s.view f) op = some (s2.view f) := by
  unfold mstep at h
  cases h1 : runOp1 (s.view f) op with
  | none => rw [h1] at h; exact absurd h (by simp)
  | some c =>
      rw [h1] at h
      obtain rfl := Option.some.inj h
      obtain ⟨cb, cst, cdb, cdq⟩ := c
      simp [MState.view, lookupA_setA_self]

theorem mstep_base (s : MState) (f : Nat) (op : FOp) (s2 : MState)
    (hsafe : SafeOp (s.view f) op) (h : mstep s f op = some s2) :
    s2.base = s.base ∧ s2.decBase = s.decBase := by
  unfold mstep at h
  cases h1 : runOp1 (s.view f) op with
  | none => rw [h1] at h; exact absurd h (by simp)
  | some c =>
      rw [h1] at h
      obtain rfl := Option.some.inj h
      have h2 := runOp1_base (s.view f) op c hsafe h1
      exact ⟨h2.1, h2.2⟩

theorem mstep_view_other (s : MState) (f g : Nat) (op : FOp) (s2 : MState)
    (hfg : f ≠ g) (hsafe : SafeOp (s.view f) op) (h : mstep s f op = some s2) :
    s2.view g = s.view g := by
  obtain ⟨hb, hdb⟩ := mstep_base s f op s2 hsafe h
  unfold mstep at h
  cases h1 : runOp1 (s.view f) op with
  | none => rw [h1] at h; exact absurd h (by simp)
  | some c =>
      rw [h1] at h
      obtain rfl := Option.some.inj h
      simp only [MState.view] at hb hdb ⊢
      rw [lookupA_setA_ne _ _ _ _ hfg, lookupA_setA_ne _ _ _ _ hfg, hb, hdb]

theorem mrun_proj (tr : List (Nat × FOp)) :
    ∀ (s s2 : MState) (o : Nat), mrun s tr = some s2 → SafeTrace s tr →
      s2.base = s.base ∧ s2.decBase = s.decBase ∧
      runF (s.view o) (projOps o tr) = some (s2.view o) := by
  induction tr with
  | nil =>
      intro s s2 o hrun hsafe
      simp only [mrun, Option.some.injEq] at hrun
      subst hrun
      exact ⟨rfl, rfl, rfl⟩
  | cons p tr ih =>
      obtain ⟨f, op⟩ := p
      intro s s2 o hrun hsafe
      obtain ⟨hop, hrest⟩ := hsafe
      simp only [mrun] at hrun
      cases h1 : mstep s f op with
      | none => rw [h1] at hrun; exact absurd hrun (by simp)
      | some s1 =>
          rw [h1] at hrun
          have hsafe1 := hrest s1 h1
          obtain ⟨hb1, hdb1, hproj1⟩ := ih s1 s2 o hrun hsafe1
          obtain ⟨hbs, hdbs⟩ := mstep_base s f op s1 hop h1
          by_cases hfo : f = o
          · subst hfo
            have hself := mstep_view_self s f op s1 h1
            refine ⟨hb1.trans hbs, hdb1.trans hdbs, ?_⟩
            have hp : projOps f ((f, op) :: tr) = op :: projOps f tr := by
              simp [projOps]
            rw [hp]
            simp only [runF, hself]
            exact hproj1
          · have hother := mstep_view_other s f o op s1 hfo hop h1
            refine ⟨hb1.trans hbs, hdb1.trans hdbs, ?_⟩
            have hp : projOps o ((f, op) :: tr) = projOps o tr := by
              simp [projOps, hfo]
            rw [hp, ← hother]
            exact hproj1

theorem phase_step (c : DIC.Container) (op : FOp) (rest : List FOp)
    (h : Phase c (op :: rest)) :
    SafeOp c op ∧ ∀ c2, runOp1 c op = some c2 → Phase c2 rest := by
  rcases h with ⟨w, hw, hwo⟩ | ⟨w, hw, hwo, hs, hd⟩ | h
  · rw [scopeBlock] at hw
    obtain ⟨rfl, rfl⟩ : op = FOp.enterOp ∧ rest = w ++ [FOp.exitOp] := by
      injection hw with h1 h2
      exact ⟨h1, h2⟩
    refine ⟨Or.inl rfl, ?_⟩
    intro c2 h2
    obtain rfl := Option.some.inj h2
    refine Or.inr (Or.inl ⟨w, rfl, hwo, ?_, ?_⟩)
    · exact List.cons_ne_nil _ _
    · exact List.cons_ne_nil _ _
  · cases w with
    | nil =>
        obtain ⟨rfl, rfl⟩ : op = FOp.exitOp ∧ rest = [] := by
          injection hw with h1 h2
          exact ⟨h1, h2⟩
        refine ⟨Or.inr (Or.inl rfl), ?_⟩
        intro c2 h2
        exact Or.inr (Or.inr rfl)
    | cons w0 ws =>
        rw [List.cons_append] at hw
        obtain ⟨rfl, rfl⟩ : op = w0 ∧ rest = ws ++ [FOp.exitOp] := by
          injection hw with h1 h2
          exact ⟨h1, h2⟩
        have hwo2 : op.isWrite = true ∧ writesOnly ws = true := by
          simpa [writesOnly] using hwo
        refine ⟨Or.inr (Or.inr ⟨hs, hd⟩), ?_⟩
        intro c2 h2
        have h3 := runOp1_write_stacks c op c2 hwo2.1 hs hd h2
        exact Or.inr (Or.inl ⟨ws, rfl, hwo2.2, h3.1, h3.2⟩)
  · cases h

theorem block_safe_aux (a b : Nat) (hab : a ≠ b) (x y tr : List (Nat × FOp))
    (hint : Interleave x y tr) :
    ∀ (trA trB : List FOp) (s : MState), x = tagged a trA →
      y = tagged b trB → Phase (s.view a) trA → Phase (s.view b) trB →
      SafeTrace s tr := by
  induction hint with
  | nil => intro trA trB s hx hy hpa hpb; exact trivial
  | @left z xs ys zs hi ih =>
      intro trA trB s hx hy hpa hpb
      cases trA with
      | nil => simp [tagged] at hx
      | cons op trA2 =>
          rw [show tagged a (op :: trA2) = (a, op) :: tagged a trA2
            from rfl] at hx
          obtain ⟨rfl, rfl⟩ : z = (a, op) ∧ xs = tagged a trA2 := by
            injection hx with h1 h2
            exact ⟨h1, h2⟩
          have hps := phase_step (s.view a) op trA2 hpa
          refine ⟨hps.1, ?_⟩
          intro s1 h1
          have hview := mstep_view_self s a op s1 h1
          have hpa2 : Phase (s1.view a) trA2 := hps.2 _ hview
          have hother : s1.view b = s.view b :=
            mstep_view_other s a b op s1 hab hps.1 h1
          exact ih trA2 trB s1 rfl hy hpa2 (by rw [hother]; exact hpb)
  | @right z xs ys zs hi ih =>
      intro trA trB s hx hy hpa hpb
      cases trB with
      | nil => simp [tagged] at hy
      | cons op trB2 =>
          rw [show tagged b (op :: trB2) = (b, op) :: tagged b trB2
            from rfl] at hy
          obtain ⟨rfl, rfl⟩ : z = (b, op) ∧ ys = tagged b trB2 := by
            injection hy with h1 h2
            exact ⟨h1, h2⟩
          have hps := phase_step (s.view b) op trB2 hpb
          refine ⟨hps.1, ?_⟩
          intro s1 h1
          have hview := mstep_view_self s b op s1 h1
          have hpb2 : Phase (s1.view b) trB2 := hps.2 _ hview
          have hother : s1.view a = s.view a :=
            mstep_view_other s b a op s1 (Ne.symm hab) hps.1 h1
          exact ih trA trB2 s1 hx rfl (by rw [hother]; exact hpa) hpb2

theorem proj_interleave (a b : Nat) (hab : a ≠ b) (x y tr : List (Nat × FOp))
    (hint : Interleave x y tr) :
    ∀ trA trB, x = tagged a trA → y = tagged b trB →
      projOps a tr = trA ∧ projOps b tr = trB := by
  induction hint with
  | nil =>
      intro trA trB hx hy
      cases trA with
      | cons _ _ => simp [tagged] at hx
      | nil =>
          cases trB with
          | cons _ _ => simp [tagged] at hy
          | nil => exact ⟨rfl, rfl⟩
  | @left z xs ys zs hi ih =>
      intro trA trB hx hy
      cases trA with
      | nil => simp [tagged] at hx
      | cons op trA2 =>
          rw [show tagged a (op :: trA2) = (a, op) :: tagged a trA2
            from rfl] at hx
          obtain ⟨rfl, rfl⟩ : z = (a, op) ∧ xs = tagged a trA2 := by
            injection hx with h1 h2
            exact ⟨h1, h2⟩
          obtain ⟨ha2, hb2⟩ := ih trA2 trB rfl hy
          constructor
          · simp [projOps] at ha2 ⊢
            exact ha2
          · simp only [projOps, List.filterMap_cons] at hb2 ⊢
            rw [if_neg hab]
            exact hb2
  | @right z xs ys zs hi ih =>
      intro trA trB hx hy
      cases trB with
      | nil => simp [tagged] at hy
      | cons op trB2 =>
          rw [show tagged b (op :: trB2) = (b, op) :: tagged b trB2
            from rfl] at hy
          obtain ⟨rfl, rfl⟩ : z = (b, op) ∧ ys = tagged b trB2 := by
            injection hy with h1 h2
            exact ⟨h1, h2⟩
          obtain ⟨ha2, hb2⟩ := ih trA trB2 hx rfl
          constructor
          · simp only [projOps, List.filterMap_cons] at ha2 ⊢
            rw [if_neg (Ne.symm hab)]
            exact ha2
          · simp [projOps] at hb2 ⊢
            exact hb2

theorem net_of_writes (ops : List FOp) (h : writesOnly ops = true) :
    ∀ d, net d ops = some d := by
  induction ops with
  | nil => intro d; simp [net]
  | cons op ops ih =>
      intro d
      cases op with
      | enterOp => simp [writesOnly, FOp.isWrite] at h
      | exitOp => simp [writesOnly, FOp.isWrite] at h
      | regD n dd =>
          have h2 : writesOnly ops = true := by
            simpa [writesOnly, FOp.isWrite] using h
          rw [show net d (FOp.regD n dd :: ops) = net d ops from by
            simp [net]]
          exact ih h2 d
      | rem n tg =>
          have h2 : writesOnly ops = true := by
            simpa [writesOnly, FOp.isWrite] using h
          rw [show net d (FOp.rem n tg :: ops) = net d ops from by
            simp [net]]
          exact ih h2 d
      | regDec n i =>
          have h2 : writesOnly ops = true := by
            simpa [writesOnly, FOp.isWrite] using h
          rw [show net d (FOp.regDec n i :: ops) = net d ops from by
            simp [net]]
          exact ih h2 d

/-- C9: cross-flow scope isolation.  For two distinct logical flows sharing
one container, each running a complete scope block (enter, any writes, exit),
for every interleaving of the two blocks that runs to completion: the shared
base tables are untouched (so after both exits neither flow's binding
remains in the base table), and each flow's final view is obtained by
running only that flow's own operations from its own initial view — the
other flow's writes are never observable, at this trace or any prefix of it
(every prefix is itself an interleaving of prefixes, covered by the
quantification over traces).  Consequently each flow's view after both
exits equals its initial view. -/
theorem c9_cross_flow_isolation (a b : Nat) (hab : a ≠ b)
    (opsA opsB : List FOp) (hwA : writesOnly opsA = true)
    (hwB : writesOnly opsB = true) (tr : List (Nat × FOp)) (s s2 : MState)
    (hint : Interleave (tagged a (scopeBlock opsA))
      (tagged b (scopeBlock opsB)) tr)
    (hrun : mrun s tr = some s2) :
    s2.base = s.base ∧ s2.decBase = s.decBase ∧
    runF (s.view a) (scopeBlock opsA) = some (s2.view a) ∧
    runF (s.view b) (scopeBlock opsB) = some (s2.view b) ∧
    s2.view a = s.view a ∧ s2.view b = s.view b := by
  have hsafe := block_safe_aux a b hab _ _ tr hint (scopeBlock opsA)
    (scopeBlock opsB) s rfl rfl (Or.inl ⟨opsA, rfl, hwA⟩)
    (Or.inl ⟨opsB, rfl, hwB⟩)
  obtain ⟨hpa, hpb⟩ := proj_interleave a b hab _ _ tr hint (scopeBlock opsA)
    (scopeBlock opsB) rfl rfl
  obtain ⟨hb1, hdb1, hra⟩ := mrun_proj tr s s2 a hrun hsafe
  obtain ⟨hb2, hdb2, hrb⟩ := mrun_proj tr s s2 b hrun hsafe
  rw [hpa] at hra
  rw [hpb] at hrb
  have hrestA : s2.view a = s.view a :=
    scopeBlock_restore (s.view a) (s2.view a) opsA (net_of_writes opsA hwA 0)
      hra
  have hrestB : s2.view b = s.view b :=
    scopeBlock_restore (s.view b) (s2.view b) opsB (net_of_writes opsB hwB 0)
      hrb
  exact ⟨hb1, hdb1, hra, hrb, hrestA, hrestB⟩

/-- C9 witness: the isolation theorem at a concrete interleaving in which
flows 1 and 2 each enter a scope, register a distinct binding for a fresh
key, and exit. -/
theorem c9_cross_flow_witness :
    (⟨[(Key.cls 0, [exDepFresh])], [], [(1, []), (2, [])],
        [(1, []), (2, [])]⟩ : MState).base = exMS.base ∧
    (⟨[(Key.cls 0, [exDepFresh])], [], [(1, []), (2, [])],
        [(1, []), (2, [])]⟩ : MState).decBase = exMS.decBase ∧
    runF (exMS.view 1) (scopeBlock [FOp.regD (Key.cls 1) exDepScope]) =
      some ((⟨[(Key.cls 0, [exDepFresh])], [], [(1, []), (2, [])],
        [(1, []), (2, [])]⟩ : MState).view 1) ∧
    runF (exMS.view 2) (scopeBlock [FOp.regD (Key.cls 2) exDepScope]) =
      some ((⟨[(Key.cls 0, [exDepFresh])], [], [(1, []), (2, [])],
        [(1, []), (2, [])]⟩ : MState).view 2) ∧
    (⟨[(Key.cls 0, [exDepFresh])], [], [(1, []), (2, [])],
        [(1, []), (2, [])]⟩ : MState).view 1 = exMS.view 1 ∧
    (⟨[(Key.cls 0, [exDepFresh])], [], [(1, []), (2, [])],
        [(1, []), (2, [])]⟩ : MState).view 2 = exMS.view 2 :=
  c9_cross_flow_isolation 1 2 (by decide)
    [FOp.regD (Key.cls 1) exDepScope] [FOp.regD (Key.cls 2) exDepScope]
    rfl rfl exTrace exMS
    ⟨[(Key.cls 0, [exDepFresh])], [], [(1, []), (2, [])], [(1, []), (2, [])]⟩
    (Interleave.left (Interleave.right (Interleave.left (Interleave.right
      (Interleave.left (Interleave.right Interleave.nil)))))) rfl
